import Mathlib

/-!
# Verification of the `message-bus` hierarchical publish-subscribe engine

This file shallowly embeds the core of the `message-bus` TypeScript library
and proves/refutes the specification claims about it.

Embedded source files (the TypeScript source is the authority):
* `messageBusImpl.ts` (the current version, with interceptors):
  `enqueueMessage`, `drainPublishQueue`, `publishMessage`, `dispatchMessage`,
  `publishAsync`, `subscribeImpl`, `hasSubscription`, `withLimit`,
  `withPriority`, `dispose`, `createInterceptor`.
* `registry.ts`: `SubscriptionRegistry` (`has`, `getAll`, `add`, `remove`,
  `registrations`, `clear`), `defaultLimit = -1`, `defaultPriority = 1`.
* `lazyAsyncRegistration.ts`: `LazyAsyncRegistration` (constructor, `handler`,
  `next`, `single`, `dispose`).
* `handlerRegistration.ts`: `HandlerRegistration` (constructor, `handler`,
  `dispose`).
* `subscriptionBuilderImpl.ts`: `SubscriptionBuilderImpl` (`withLimit`,
  `withPriority`, `subscribe`, `subscribeOnce`).
* `topic.ts`: topic modes (`multicast`/`unicast`) and broadcast directions
  (`children`/`parent`).

Modelling conventions:
* Message payloads are modelled as `Nat`, handler errors as `Nat` codes.
* Topic identity is by reference in the source; we model it with a numeric
  tag `tid` plus the topic's policy fields.
* JavaScript promises: handlers in the embedded dispatch are synchronous
  (they return a value or throw), matching how the dispatch pipeline invokes
  them; promise continuations (the `.then` chain of `publishMessage`) are
  modelled as single microtask-queue entries.  The JS microtask queue is
  FIFO, and every `publishMessage` chain has the same number of hops, so
  collapsing each chain to one queue entry preserves the relative order of
  all observable events.
* A thrown JS exception is modelled with `Except`, or — for internal calls
  whose throwing branch is unreachable in the scenarios considered — as an
  explicit no-op that is pointed out in a comment.
-/

set_option maxHeartbeats 1000000

namespace MB

/-- Message payloads (`data` in the source) are modelled as natural numbers. -/
abbrev Data := Nat

/-- Bus identities (object references in the source). -/
abbrev BusId := Nat

/-- Registration identities (object references in the source). -/
abbrev RegId := Nat

/-- `Topic.mode` from `topic.ts`: `"multicast" | "unicast"`. -/
inductive Mode where
  | multicast
  | unicast
deriving DecidableEq, Repr

/-- `Topic.broadcastDirection` from `topic.ts`: `"children" | "parent"`. -/
inductive Direction where
  | children
  | parent
deriving DecidableEq, Repr

/-- A `Topic` from `topic.ts`: identity (`tid`, standing for the object
reference created by `createTopic`) plus the immutable policy fields. -/
structure Topic where
  tid : Nat
  mode : Mode
  broadcastDirection : Direction
deriving DecidableEq, Repr

/-- `defaultLimit` from `registry.ts` (line 6): `-1`, meaning unlimited. -/
def defaultLimit : Int := -1

/-- `defaultPriority` from `registry.ts` (line 9): `1`. -/
def defaultPriority : Int := 1

end MB

namespace MB.Reg

/-!
## Registration-level model

Embeds `SubscriptionRegistry` (`registry.ts`), `HandlerRegistration`
(`handlerRegistration.ts`) and `LazyAsyncRegistration`
(`lazyAsyncRegistration.ts`).  The registry maps a topic to the ordered list
of registration identities bound to it; the mutable per-registration state
(`isActive`, `isDisposed`, `remaining`, plus the lazy registration's data
queue and pending-pull queue) lives in the registration record itself.
-/

/-- The per-bus `SubscriptionRegistry`: `Map<Topic, Registration[]>`,
modelled as an association list preserving both key insertion order and
per-topic registration insertion order. -/
abbrev Registry := List (Topic × List RegId)

/-- `SubscriptionRegistry.has` (registry.ts lines 35-38): whether the
registry contains any registration for the topic, including inactive ones. -/
def registryHas (reg : Registry) (t : Topic) : Bool :=
  match reg.find? (fun p => p.1 = t) with
  | some p => p.2.length > 0
  | none => false

/-- The per-topic registration list (`myMap.get(topic) ?? []`). -/
def registryGet (reg : Registry) (t : Topic) : List RegId :=
  match reg.find? (fun p => p.1 = t) with
  | some p => p.2
  | none => []

/-- `SubscriptionRegistry.add` (registry.ts lines 51-60): appends the
registration to the topic's list (creating the list if absent).  The
`check(!registrations.includes(registration))` duplicate guard throws in the
source; adding a duplicate is modelled as a no-op, and no scenario in this
file reaches that branch. -/
def registryAdd (reg : Registry) (t : Topic) (r : RegId) : Registry :=
  match reg with
  | [] => [(t, [r])]
  | (t', rs) :: rest =>
    if t' = t then
      if r ∈ rs then (t', rs) :: rest else (t', rs ++ [r]) :: rest
    else
      (t', rs) :: registryAdd rest t r

/-- `SubscriptionRegistry.remove` (registry.ts lines 67-80): removes the
first occurrence of the registration from the topic's list.  The
`error("missing registration")` branch (registration not present) throws in
the source; it is modelled as leaving the registry unchanged, and no
scenario in this file reaches it. -/
def registryRemove (reg : Registry) (t : Topic) (r : RegId) : Registry :=
  reg.map (fun p => if p.1 = t then (p.1, p.2.eraseP (fun x => x = r)) else p)

/-- `SubscriptionRegistry.registrations` (registry.ts lines 27-29): all
registrations in the registry, regardless of whether they are active. -/
def registryAll (reg : Registry) : List RegId :=
  reg.flatMap (fun p => p.2)

/-- Mutable state shared by both registration variants: `isActive`,
`isDisposed`, `remaining` (message budget, negative = unlimited) and
`priority`.  The lazy variant additionally owns `myDataQueue` (buffered
undelivered payloads) and `myPromiseQueue` (pending consumer pulls, of which
only the count is observable here). -/
structure LazyState where
  dataQueue : List Data
  waiting : Nat
  isActive : Bool
  isDisposed : Bool
  remaining : Int
  priority : Int
deriving DecidableEq, Repr

/-- A `LazyAsyncRegistration` object: its identity, the topics it was
subscribed to, and its mutable state. -/
structure LazyReg where
  rid : RegId
  topics : List Topic
  st : LazyState
deriving DecidableEq, Repr

/-- `LazyAsyncRegistration`'s constructor (lazyAsyncRegistration.ts lines
18-27): initialises `isActive = false`, `isDisposed = false`,
`remaining = limit`, `priority`, empty data/promise queues, and then adds
itself to the registry for **each** of its topics. -/
def lazyConstructor (reg : Registry) (rid : RegId) (topics : List Topic)
    (limit priority : Int) : Registry × LazyReg :=
  (topics.foldl (fun acc t => registryAdd acc t rid) reg,
   { rid := rid, topics := topics,
     st := { dataQueue := [], waiting := 0, isActive := false,
             isDisposed := false, remaining := limit, priority := priority } })

/-- `LazyAsyncRegistration.dispose` (lazyAsyncRegistration.ts lines 47-58):
idempotent; sets `isDisposed`, clears `isActive`, removes the registration
from the registry for each of its topics. -/
def lazyDispose (reg : Registry) (r : LazyReg) : Registry × LazyReg :=
  if r.st.isDisposed then (reg, r)
  else
    (r.topics.foldl (fun acc t => registryRemove acc t r.rid) reg,
     { r with st := { r.st with isDisposed := true, isActive := false } })

/-- What a call to `LazyAsyncRegistration.handler` did with the payload. -/
inductive Delivered where
  /-- The payload was handed to a waiting pull (`myPromiseQueue.shift()`). -/
  | toWaiting
  /-- The payload was appended to the backlog (`myDataQueue.push(data)`). -/
  | toQueue
  /-- Nothing was delivered: the budget was already exhausted, so the call
  disposed the registration and dropped the payload. -/
  | dropped
deriving DecidableEq, Repr

/-- `LazyAsyncRegistration.handler` (lazyAsyncRegistration.ts lines 29-45):
if `remaining === 0`, dispose and drop the payload; otherwise decrement a
positive budget, then hand the payload to a waiting pull if one exists, else
buffer it. -/
def lazyHandler (reg : Registry) (r : LazyReg) (d : Data) :
    Registry × LazyReg × Delivered :=
  if r.st.remaining = 0 then
    let p := lazyDispose reg r
    (p.1, p.2, .dropped)
  else
    let st := if r.st.remaining > 0 then
        { r.st with remaining := r.st.remaining - 1 }
      else r.st
    if st.waiting > 0 then
      (reg, { r with st := { st with waiting := st.waiting - 1 } }, .toWaiting)
    else
      (reg, { r with st := { st with dataQueue := st.dataQueue ++ [d] } }, .toQueue)

/-- Result of a `next()` pull, i.e. the `IteratorResult` it settles with
(`pending` = the returned promise is still waiting for a future delivery). -/
inductive PullResult where
  | value (d : Data)
  | done
  | pending
deriving DecidableEq, Repr

/-- `LazyAsyncRegistration.next` (lazyAsyncRegistration.ts lines 66-79):
drain the backlog first, in arrival order; if disposed report termination;
otherwise mark the registration active and queue a waiting pull. -/
def lazyNext (r : LazyReg) : LazyReg × PullResult :=
  match r.st.dataQueue with
  | d :: rest => ({ r with st := { r.st with dataQueue := rest } }, .value d)
  | [] =>
    if r.st.isDisposed then (r, .done)
    else
      ({ r with st := { r.st with isActive := true, waiting := r.st.waiting + 1 } },
       .pending)

/-- A `HandlerRegistration` object (handlerRegistration.ts): eager callback
registration; `isActive = true` immediately. -/
structure HReg where
  rid : RegId
  topics : List Topic
  isActive : Bool
  isDisposed : Bool
  remaining : Int
  priority : Int
deriving DecidableEq, Repr

/-- `HandlerRegistration`'s constructor (handlerRegistration.ts lines
115-131): `isActive = true` immediately (eager registration), and adds
itself to the registry for each of its topics. -/
def handlerConstructor (reg : Registry) (rid : RegId) (topics : List Topic)
    (limit priority : Int) : Registry × HReg :=
  (topics.foldl (fun acc t => registryAdd acc t rid) reg,
   { rid := rid, topics := topics, isActive := true, isDisposed := false,
     remaining := limit, priority := priority })

/-- `HandlerRegistration.dispose` (handlerRegistration.ts lines 146-157). -/
def handlerDispose (reg : Registry) (h : HReg) : Registry × HReg :=
  if h.isDisposed then (reg, h)
  else
    (h.topics.foldl (fun acc t => registryRemove acc t h.rid) reg,
     { h with isDisposed := true, isActive := false })

/-- `HandlerRegistration.handler` (handlerRegistration.ts lines 133-144):
if `remaining === 0`, dispose and drop; otherwise decrement a positive
budget and invoke the user handler (the returned `Bool` records whether the
user handler was invoked, i.e. the message was delivered). -/
def handlerInvoke (reg : Registry) (h : HReg) : Registry × HReg × Bool :=
  if h.remaining = 0 then
    let p := handlerDispose reg h
    (p.1, p.2, false)
  else
    let h := if h.remaining > 0 then { h with remaining := h.remaining - 1 } else h
    (reg, h, true)

/-- Iterate `handlerInvoke` over a number of delivered messages, counting
how many were actually handed to the user handler. -/
def handlerRun (reg : Registry) (h : HReg) : Nat → Registry × HReg × Nat
  | 0 => (reg, h, 0)
  | n + 1 =>
    let p := handlerInvoke reg h
    let q := handlerRun p.1 p.2.1 n
    (q.1, q.2.1, (if p.2.2 then 1 else 0) + q.2.2)

end MB.Reg

namespace MB.PSort

/-!
## Priority sort

`dispatchMessage` (messageBusImpl.ts line 333) sorts the active
registrations with `.sort((a, b) => a.priority - b.priority)`.
`Array.prototype.sort` is guaranteed stable by ECMAScript 2019+, so the
comparator induces the unique stable ascending-by-priority ordering.  We
model it as a stable insertion sort, parameterised by the priority
projection so the different registration records of this file can share it.
-/

/-- Insert `x` into an (ascending-by-priority) list, after every element of
strictly smaller priority and before the first element of greater-or-equal
priority; elements of equal priority that were earlier in the original list
have already been inserted, so they stay before `x`. -/
def insertByPriority (pr : α → Int) (x : α) : List α → List α
  | [] => [x]
  | y :: ys => if pr y < pr x then y :: insertByPriority pr x ys else x :: y :: ys

/-- The stable ascending-priority sort modelling
`registrations.sort((a, b) => a.priority - b.priority)`. -/
def sortByPriority (pr : α → Int) : List α → List α
  | [] => []
  | x :: xs => insertByPriority pr x (sortByPriority pr xs)

theorem insertByPriority_perm (pr : α → Int) (x : α) (l : List α) :
    (insertByPriority pr x l).Perm (x :: l) := by
  induction l with
  | nil => simp [insertByPriority]
  | cons y ys ih =>
    simp only [insertByPriority]
    by_cases h : pr y < pr x
    · simp only [if_pos h]
      exact ((ih.cons y).trans (List.Perm.swap x y ys))
    · simp [if_neg h]

theorem sortByPriority_perm (pr : α → Int) (l : List α) :
    (sortByPriority pr l).Perm l := by
  induction l with
  | nil => simp [sortByPriority]
  | cons x xs ih =>
    exact (insertByPriority_perm pr x (sortByPriority pr xs)).trans (ih.cons x)

theorem insertByPriority_sorted (pr : α → Int) (x : α) (l : List α)
    (h : l.Pairwise (fun a b => pr a ≤ pr b)) :
    (insertByPriority pr x l).Pairwise (fun a b => pr a ≤ pr b) := by
  induction l with
  | nil => simp [insertByPriority]
  | cons y ys ih =>
    simp only [insertByPriority]
    rcases List.pairwise_cons.mp h with ⟨hy, hys⟩
    by_cases hc : pr y < pr x
    · simp only [if_pos hc]
      refine List.pairwise_cons.mpr ⟨?_, ih hys⟩
      intro b hb
      have hperm := insertByPriority_perm pr x ys
      have hb' : b ∈ x :: ys := hperm.mem_iff.mp hb
      rcases List.mem_cons.mp hb' with hbx | hbys
      · exact hbx ▸ le_of_lt hc
      · exact hy b hbys
    · simp only [if_neg hc]
      push_neg at hc
      refine List.pairwise_cons.mpr ⟨?_, h⟩
      intro b hb
      rcases List.mem_cons.mp hb with hbx | hbys
      · exact hbx ▸ hc
      · exact le_trans hc (hy b hbys)

theorem sortByPriority_sorted (pr : α → Int) (l : List α) :
    (sortByPriority pr l).Pairwise (fun a b => pr a ≤ pr b) := by
  induction l with
  | nil => simp [sortByPriority]
  | cons x xs ih => exact insertByPriority_sorted pr x _ ih

theorem insertByPriority_filter_pos (pr : α → Int) (x : α) (l : List α) (p : Int)
    (hx : pr x = p) :
    (insertByPriority pr x l).filter (fun a => pr a = p) =
      x :: l.filter (fun a => pr a = p) := by
  induction l with
  | nil => simp [insertByPriority, hx]
  | cons y ys ih =>
    simp only [insertByPriority]
    by_cases hc : pr y < pr x
    · have hyp : pr y ≠ p := by
        intro h
        rw [hx, ← h] at hc
        exact lt_irrefl _ hc
      rw [if_pos hc]
      simp [List.filter_cons, hyp, ih]
    · rw [if_neg hc]
      simp [List.filter_cons, hx]

theorem insertByPriority_filter_neg (pr : α → Int) (x : α) (l : List α) (p : Int)
    (hx : pr x ≠ p) :
    (insertByPriority pr x l).filter (fun a => pr a = p) =
      l.filter (fun a => pr a = p) := by
  induction l with
  | nil => simp [insertByPriority, hx]
  | cons y ys ih =>
    simp only [insertByPriority]
    by_cases hc : pr y < pr x
    · rw [if_pos hc]
      simp [List.filter_cons, ih]
    · rw [if_neg hc]
      simp [List.filter_cons, hx]

/-- Stability of the priority sort: for every priority value `p`, the
elements of priority `p` appear in the sorted output in exactly the order
they had in the input. -/
theorem sortByPriority_stable (pr : α → Int) (l : List α) (p : Int) :
    (sortByPriority pr l).filter (fun a => pr a = p) =
      l.filter (fun a => pr a = p) := by
  induction l with
  | nil => simp [sortByPriority]
  | cons x xs ih =>
    simp only [sortByPriority]
    by_cases hx : pr x = p
    · rw [insertByPriority_filter_pos pr x _ p hx, ih, List.filter_cons, if_pos (by simp [hx])]
    · rw [insertByPriority_filter_neg pr x _ p hx, ih, List.filter_cons, if_neg (by simp [hx])]

end MB.PSort


namespace MB.Out

/-!
## Outcome model of `publishMessage` / `dispatchMessage` / `publishAsync`

This model computes, for one published message, the `MessageResult` the
promise machinery of `messageBusImpl.ts` produces (lines 296-411) and the
sequence of errors forwarded to the bus hierarchy's error callback
(`handleError`), over a finite bus tree.  Handlers are synchronous payload
transformers (`Data → Except Nat Data`, a returned value or a thrown error
code), which is how `dispatchMessage` invokes them through the composed
interceptor chain: with an empty interceptor set the composed `handler`
(createInterceptor, lines 447-454) invokes the registration handler
directly and funnels a synchronous throw into a rejection, which is what
`Except.error` stands for.
-/

/-- Which call site forwarded an error to `handleError`: the listener
notification loop (lines 337-344) or a registration handler's rejection
handler (lines 374-384). -/
inductive ErrSrc where
  | listener
  | handler
deriving DecidableEq, Repr

/-- One error forwarded to the configured error callback. -/
abbrev CbEntry := ErrSrc × Nat

/-- A registration as `dispatchMessage` sees it: identity, `isActive`,
`priority`, and the bound handler. -/
structure PReg where
  rid : RegId
  isActive : Bool
  priority : Int
  result : Data → Except Nat Data

/-- The `MessageResult` record of `messageBusImpl.ts` (lines 35-39):
`vetoed` is `none` for the absent (`undefined`) field. -/
structure MessageResult where
  values : List Data
  errors : List Nat
  vetoed : Option Bool
deriving DecidableEq, Repr

/-- A bus node: registry (`Map<Topic, Registration[]>`), listeners
(observers that may throw), interceptor veto predicates in insertion order,
and child buses in insertion order. -/
inductive BusTree where
  | node (registry : List (Topic × List PReg))
         (listeners : List (Data → Except Nat Unit))
         (vetoes : List (Topic → Data → Bool))
         (children : List BusTree)

def BusTree.registry : BusTree → List (Topic × List PReg)
  | .node r _ _ _ => r

def BusTree.listeners : BusTree → List (Data → Except Nat Unit)
  | .node _ l _ _ => l

def BusTree.vetoes : BusTree → List (Topic → Data → Bool)
  | .node _ _ v _ => v

def BusTree.children : BusTree → List BusTree
  | .node _ _ _ c => c

/-- Structural induction over bus trees. -/
theorem busTree_ind (P : BusTree → Prop)
    (h : ∀ rs ls vs cs, (∀ c ∈ cs, P c) → P (BusTree.node rs ls vs cs)) :
    ∀ t, P t
  | .node rs ls vs cs => h rs ls vs cs (fun c hc => busTree_ind P h c)
termination_by t => sizeOf t
decreasing_by
  have hm := List.sizeOf_lt_of_mem hc
  simp
  omega

/-- `SubscriptionRegistry.getAll` (registry.ts lines 43-46) over the
registration records of this model. -/
def getAllP (registry : List (Topic × List PReg)) (t : Topic) (activeOnly : Bool) :
    List PReg :=
  let rs := match registry.find? (fun p => p.1 = t) with
            | some p => p.2
            | none => []
  if activeOnly then rs.filter (fun r => r.isActive) else rs

/-- The composed `isVetoed` of `createInterceptor` (messageBusImpl.ts lines
469-479): ask each interceptor most-recently-added first, short-circuiting
on the first `true`. -/
def isVetoedComposed (vets : List (Topic → Data → Bool)) (t : Topic) (d : Data) : Bool :=
  vets.reverse.any (fun v => v t d)

/-- The settled state of one registration invocation, split the way
`Promise.allSettled` reports it: a fulfilled value. -/
def valPart : Except Nat Data → Option Data
  | .ok v => some v
  | .error _ => none

/-- The settled state of one registration invocation: a rejection reason. -/
def errPart : Except Nat Data → Option Nat
  | .error e => some e
  | .ok _ => none

/-- A rejected invocation as the error-callback entry the fire-and-forget
path produces for it (lines 374-384). -/
def toHandlerEntry : Except Nat Data → Option CbEntry
  | .error e => some (ErrSrc.handler, e)
  | .ok _ => none

/-- The `registrations.map` / `Promise.allSettled` / `Promise.all` tail of
`dispatchMessage` (lines 362-410): invoke the sorted registrations, split
fulfilled/rejected preserving invocation order, bail out early for
fire-and-forget or no-subscriber dispatches, then append each broadcast
target's own aggregated values and errors in order.  Also collects the
errors forwarded to `handleError`: listener errors always (passed in as
`lcb`), handler errors only on the fire-and-forget path. -/
def dispatchCombine (regs : List PReg) (lcb : List CbEntry)
    (broadcastResults : List (MessageResult × List CbEntry)) (d : Data)
    (awaitable : Bool) : MessageResult × List CbEntry :=
  let locals := regs.map (fun r => r.result d)
  let hcb : List CbEntry := if awaitable then [] else locals.filterMap toHandlerEntry
  let cbs := lcb ++ hcb ++ broadcastResults.flatMap (fun p => p.2)
  if ¬awaitable ∨ (regs.length = 0 ∧ broadcastResults.length = 0) then
    ({ values := [], errors := [], vetoed := none }, cbs)
  else
    ({ values := locals.filterMap valPart ++
         broadcastResults.flatMap (fun p => p.1.values),
       errors := locals.filterMap errPart ++
         broadcastResults.flatMap (fun p => p.1.errors),
       vetoed := none }, cbs)

/-- The listener notification loop of `dispatchMessage` (lines 335-345):
run only when the message carries the `listeners` flag; failures are
forwarded to `handleError` and never block delivery. -/
def listenerErrors (listeners : List (Data → Except Nat Unit)) (d : Data)
    (listenersFlag : Bool) : List CbEntry :=
  if listenersFlag then
    listeners.filterMap (fun f => match f d with
      | .error e => some (ErrSrc.listener, e)
      | .ok _ => none)
  else []

/-- `publishMessage` followed by `dispatchMessage` for a message received by
a bus inside the tree (messageBusImpl.ts lines 308-411): veto check first —
a veto yields `{values: [], errors: [], vetoed}` with no dispatch — then
listener notification, child broadcast (direction `children` propagates
recursively with the `listeners` flag unset; inside this downward recursion
the `parent` direction never applies because broadcast messages to children
carry the `broadcast` flag together with the same `children`-direction
topic), and handler invocation. -/
def publishCollect (t : BusTree) (topic : Topic) (d : Data)
    (broadcast listenersFlag awaitable : Bool) : MessageResult × List CbEntry :=
  if isVetoedComposed t.vetoes topic d then
    ({ values := [], errors := [], vetoed := some true }, [])
  else
    let regs := MB.PSort.sortByPriority (fun r => r.priority)
      (getAllP t.registry topic true)
    let lcb := listenerErrors t.listeners d listenersFlag
    let broadcastResults :=
      if broadcast ∧ topic.broadcastDirection = Direction.children then
        t.children.attach.map (fun c => publishCollect c.1 topic d true false awaitable)
      else []
    dispatchCombine regs lcb broadcastResults d awaitable
termination_by sizeOf t
decreasing_by
  have hm := List.sizeOf_lt_of_mem c.2
  cases t with
  | node r l v cs => simp only [BusTree.children] at hm ⊢; simp; omega

/-- A top-level `publish`/`publishAsync` call on a bus whose parent (if
any) is given separately: the published message carries
`broadcast: true, listeners: true`; a `parent`-direction topic broadcasts to
the immediate parent only, with a message that has no `broadcast` flag, so
it never propagates further (lines 352-360). -/
def publishTop (t : BusTree) (parent : Option BusTree) (topic : Topic) (d : Data)
    (awaitable : Bool) : MessageResult × List CbEntry :=
  if isVetoedComposed t.vetoes topic d then
    ({ values := [], errors := [], vetoed := some true }, [])
  else
    let regs := MB.PSort.sortByPriority (fun r => r.priority)
      (getAllP t.registry topic true)
    let lcb := listenerErrors t.listeners d true
    let broadcastResults :=
      if topic.broadcastDirection = Direction.children then
        t.children.map (fun c => publishCollect c topic d true false awaitable)
      else
        match parent with
        | some p => [publishCollect p topic d false false awaitable]
        | none => []
    dispatchCombine regs lcb broadcastResults d awaitable

/-- The outcome `publishAsync`'s returned promise settles with. -/
inductive PubOutcome where
  /-- Resolved with the list of all handler values (multicast topic). -/
  | ok (vs : List Data)
  /-- Resolved with the single handler's value (unicast topic). -/
  | okSingle (v : Data)
  /-- Rejected with the single failing handler's error, as-is. -/
  | errSingle (e : Nat)
  /-- Rejected with `new AggregateError(errors)`. -/
  | errAggregate (es : List Nat)
  /-- Rejected with `publishing to ... has been vetoed`. -/
  | errVetoed
  /-- Rejected with `no subscribers for ...`. -/
  | errNoSubscribers
  /-- Rejected with `multiple result values for ...`. -/
  | errMultipleResults
deriving DecidableEq, Repr

/-- The `.then` continuation of `publishAsync` (messageBusImpl.ts lines
121-132), translated exactly: throw the single error or an aggregate of all
of them; `check(vetoed !== false, "...has been vetoed")` throws only when
`vetoed` is literally `false`; `check(values.length > 0, "no subscribers")`;
`check(isMulticast || values.length === 1, "multiple result values")`. -/
def publishAsyncResult (topic : Topic) (r : MessageResult) : PubOutcome :=
  match r.errors with
  | [e] => .errSingle e
  | _ :: _ :: _ => .errAggregate r.errors
  | [] =>
    if r.vetoed = some false then .errVetoed
    else if r.values.length = 0 then .errNoSubscribers
    else if topic.mode = Mode.multicast then .ok r.values
    else if r.values.length = 1 then .okSingle r.values.headI
    else .errMultipleResults

end MB.Out

namespace MB.Out

/-- The handler-sourced errors among a callback trace. -/
def handlerPart (cbs : List CbEntry) : List Nat :=
  cbs.filterMap (fun e => if e.1 = ErrSrc.handler then some e.2 else none)

theorem handlerPart_append (a b : List CbEntry) :
    handlerPart (a ++ b) = handlerPart a ++ handlerPart b := by
  simp [handlerPart]

theorem handlerPart_flatMap {α : Type} (l : List α) (f : α → List CbEntry) :
    handlerPart (l.flatMap f) = l.flatMap (fun x => handlerPart (f x)) := by
  simp [handlerPart, List.filterMap_flatMap]

theorem handlerPart_listenerErrors (ls : List (Data → Except Nat Unit)) (d : Data)
    (lf : Bool) : handlerPart (listenerErrors ls d lf) = [] := by
  unfold handlerPart listenerErrors
  by_cases h : lf = true
  · simp only [if_pos h, List.filterMap_filterMap]
    apply List.filterMap_eq_nil_iff.mpr
    intro f hf
    cases hfd : f d <;> simp [hfd]
  · simp [if_neg h]

theorem handlerPart_toHandlerEntry (locals : List (Except Nat Data)) :
    handlerPart (locals.filterMap toHandlerEntry) = locals.filterMap errPart := by
  unfold handlerPart
  rw [List.filterMap_filterMap]
  apply List.filterMap_congr
  intro v _
  cases v <;> simp [toHandlerEntry, errPart]

/-- The callback trace of one dispatch: listener errors, then — on the
fire-and-forget path only — the handler errors, then the broadcast targets'
traces. -/
theorem dispatchCombine_snd (regs : List PReg) (lcb : List CbEntry)
    (brs : List (MessageResult × List CbEntry)) (d : Data) (aw : Bool) :
    (dispatchCombine regs lcb brs d aw).2 =
      lcb ++ (if aw then []
              else (regs.map (fun r => r.result d)).filterMap toHandlerEntry)
        ++ brs.flatMap (fun p => p.2) := by
  simp only [dispatchCombine]
  split <;> rfl

/-- The aggregated rejection reasons of an awaited dispatch: the local
handlers' errors in invocation order, then each broadcast target's errors
in order. -/
theorem dispatchCombine_errors_await (regs : List PReg) (lcb : List CbEntry)
    (brs : List (MessageResult × List CbEntry)) (d : Data) :
    (dispatchCombine regs lcb brs d true).1.errors =
      if regs.length = 0 ∧ brs.length = 0 then []
      else (regs.map (fun r => r.result d)).filterMap errPart ++
        brs.flatMap (fun p => p.1.errors) := by
  simp only [dispatchCombine, not_true, false_or]
  split <;> rfl

theorem dispatchCombine_values_await (regs : List PReg) (lcb : List CbEntry)
    (brs : List (MessageResult × List CbEntry)) (d : Data) :
    (dispatchCombine regs lcb brs d true).1.values =
      if regs.length = 0 ∧ brs.length = 0 then []
      else (regs.map (fun r => r.result d)).filterMap valPart ++
        brs.flatMap (fun p => p.1.values) := by
  simp only [dispatchCombine, not_true, false_or]
  split <;> rfl

/-- A fire-and-forget dispatch surfaces no values and no errors to the
publisher (`dispatchMessage`'s early `return` when `!awaitable`). -/
theorem dispatchCombine_fst_forget (regs : List PReg) (lcb : List CbEntry)
    (brs : List (MessageResult × List CbEntry)) (d : Data) :
    (dispatchCombine regs lcb brs d false).1 =
      { values := [], errors := [], vetoed := none } := by
  simp [dispatchCombine]

theorem handlerPart_nil : handlerPart [] = [] := rfl

/-- An awaited publish produces no handler-sourced error-callback entries
anywhere in the tree: the per-registration `.catch` rethrows when
`awaitable` (lines 374-378), and the broadcast messages inherit the
`awaitable` flag. -/
theorem publishCollect_await_handlerPart :
    ∀ t : BusTree, ∀ topic (d : Data) (b lf : Bool),
      handlerPart (publishCollect t topic d b lf true).2 = [] := by
  intro t
  induction t using busTree_ind with
  | h rs ls vs cs ih =>
    intro topic d b lf
    by_cases hv : isVetoedComposed (BusTree.node rs ls vs cs).vetoes topic d = true
    · rw [publishCollect, if_pos hv]
      rfl
    · rw [publishCollect, if_neg hv]
      simp only []
      rw [dispatchCombine_snd, handlerPart_append, handlerPart_append,
        handlerPart_listenerErrors, if_pos rfl, handlerPart_nil, handlerPart_flatMap]
      simp only [List.nil_append, List.append_nil, BusTree.children]
      by_cases hb : (b = true ∧ topic.broadcastDirection = Direction.children)
      · rw [if_pos hb, List.flatMap_map]
        have hcong : ∀ c ∈ cs.attach,
            handlerPart ((publishCollect c.1 topic d true false true).2) = [] := by
          intro c _
          exact ih c.1 c.2 topic d true false
        rw [List.flatMap_congr (fun c hc => hcong c hc)]
        simp
      · rw [if_neg hb]
        rfl

/-- The handler errors a fire-and-forget publish forwards (one at a time)
to the error callback are exactly the rejection reasons the corresponding
awaited publish would aggregate, in the same order. -/
theorem publishCollect_forget_handlerPart :
    ∀ t : BusTree, ∀ topic (d : Data) (b lf : Bool),
      handlerPart (publishCollect t topic d b lf false).2 =
        (publishCollect t topic d b lf true).1.errors := by
  intro t
  induction t using busTree_ind with
  | h rs ls vs cs ih =>
    intro topic d b lf
    by_cases hv : isVetoedComposed (BusTree.node rs ls vs cs).vetoes topic d = true
    · rw [publishCollect, if_pos hv, publishCollect, if_pos hv]
      rfl
    · rw [publishCollect, if_neg hv, publishCollect, if_neg hv]
      simp only []
      rw [dispatchCombine_snd, dispatchCombine_errors_await, handlerPart_append,
        handlerPart_append, handlerPart_listenerErrors, if_neg (by simp),
        handlerPart_toHandlerEntry, handlerPart_flatMap]
      simp only [List.nil_append, BusTree.children]
      by_cases hb : (b = true ∧ topic.broadcastDirection = Direction.children)
      · rw [if_pos hb, if_pos hb, List.flatMap_map, List.flatMap_map]
        have hcong : ∀ c ∈ cs.attach,
            handlerPart ((publishCollect c.1 topic d true false false).2) =
              (publishCollect c.1 topic d true false true).1.errors := by
          intro c _
          exact ih c.1 c.2 topic d true false
        rw [List.flatMap_congr (fun c hc => hcong c hc)]
        by_cases hz : (MB.PSort.sortByPriority (fun r => r.priority)
            (getAllP (BusTree.node rs ls vs cs).registry topic true)).length = 0 ∧
            (cs.attach.map (fun c => publishCollect c.1 topic d true false true)).length = 0
        · rw [if_pos hz]
          rcases hz with ⟨hz1, hz2⟩
          rw [List.length_eq_zero] at hz1
          rw [hz1]
          simp only [List.map_nil, List.filterMap_nil, List.nil_append]
          rw [List.length_map, List.length_attach, List.length_eq_zero] at hz2
          rw [hz2]
          rfl
        · rw [if_neg hz]
      · rw [if_neg hb, if_neg hb]
        by_cases hz : (MB.PSort.sortByPriority (fun r => r.priority)
            (getAllP (BusTree.node rs ls vs cs).registry topic true)).length = 0 ∧
            ([] : List (MessageResult × List CbEntry)).length = 0
        · rw [if_pos hz]
          rcases hz with ⟨hz1, _⟩
          rw [List.length_eq_zero] at hz1
          rw [hz1]
          rfl
        · rw [if_neg hz]
          rfl

theorem publishTop_await_handlerPart (t : BusTree) (parent : Option BusTree)
    (topic : Topic) (d : Data) :
    handlerPart (publishTop t parent topic d true).2 = [] := by
  by_cases hv : isVetoedComposed t.vetoes topic d = true
  · rw [publishTop.eq_def, if_pos hv]
    rfl
  · rw [publishTop.eq_def, if_neg hv]
    simp only []
    rw [dispatchCombine_snd, handlerPart_append, handlerPart_append,
      handlerPart_listenerErrors, if_pos rfl, handlerPart_nil, handlerPart_flatMap]
    simp only [List.nil_append, List.append_nil]
    by_cases hb : topic.broadcastDirection = Direction.children
    · rw [if_pos hb, List.flatMap_map]
      have hcong : ∀ c ∈ t.children,
          handlerPart ((publishCollect c topic d true false true).2) = [] := by
        intro c _
        exact publishCollect_await_handlerPart c topic d true false
      rw [List.flatMap_congr (fun c hc => hcong c hc)]
      simp
    · rw [if_neg hb]
      cases parent with
      | none => rfl
      | some p =>
        simp only [List.flatMap_cons, List.flatMap_nil, List.append_nil]
        exact publishCollect_await_handlerPart p topic d false false

theorem publishTop_forget_handlerPart (t : BusTree) (parent : Option BusTree)
    (topic : Topic) (d : Data) :
    handlerPart (publishTop t parent topic d false).2 =
      (publishTop t parent topic d true).1.errors := by
  by_cases hv : isVetoedComposed t.vetoes topic d = true
  · rw [publishTop.eq_def, if_pos hv, publishTop.eq_def, if_pos hv]
    rfl
  · rw [publishTop.eq_def, if_neg hv, publishTop.eq_def, if_neg hv]
    simp only []
    rw [dispatchCombine_snd, dispatchCombine_errors_await, handlerPart_append,
      handlerPart_append, handlerPart_listenerErrors, if_neg (by simp),
      handlerPart_toHandlerEntry, handlerPart_flatMap]
    simp only [List.nil_append]
    by_cases hb : topic.broadcastDirection = Direction.children
    · rw [if_pos hb, if_pos hb, List.flatMap_map, List.flatMap_map]
      have hcong : ∀ c ∈ t.children,
          handlerPart ((publishCollect c topic d true false false).2) =
            (publishCollect c topic d true false true).1.errors := by
        intro c _
        exact publishCollect_forget_handlerPart c topic d true false
      rw [List.flatMap_congr (fun c hc => hcong c hc)]
      by_cases hz : (MB.PSort.sortByPriority (fun r => r.priority)
          (getAllP t.registry topic true)).length = 0 ∧
          (t.children.map (fun c => publishCollect c topic d true false true)).length = 0
      · rw [if_pos hz]
        rcases hz with ⟨hz1, hz2⟩
        rw [List.length_eq_zero] at hz1
        rw [hz1]
        simp only [List.map_nil, List.filterMap_nil, List.nil_append]
        rw [List.length_map, List.length_eq_zero] at hz2
        rw [hz2]
        rfl
      · rw [if_neg hz]
    · rw [if_neg hb, if_neg hb]
      cases parent with
      | none =>
        simp only [List.flatMap_nil, List.append_nil]
        by_cases hz : (MB.PSort.sortByPriority (fun r => r.priority)
            (getAllP t.registry topic true)).length = 0 ∧
            ([] : List (MessageResult × List CbEntry)).length = 0
        · rw [if_pos hz]
          rcases hz with ⟨hz1, _⟩
          rw [List.length_eq_zero] at hz1
          rw [hz1]
          rfl
        · rw [if_neg hz]
      | some p =>
        simp only [List.flatMap_cons, List.flatMap_nil, List.append_nil]
        rw [publishCollect_forget_handlerPart p topic d false false]
        by_cases hz : (MB.PSort.sortByPriority (fun r => r.priority)
            (getAllP t.registry topic true)).length = 0 ∧
            ([(publishCollect p topic d false false true)] :
              List (MessageResult × List CbEntry)).length = 0
        · rcases hz with ⟨_, hz2⟩
          simp at hz2
        · rw [if_neg hz]

theorem publishTop_forget_fst (t : BusTree) (parent : Option BusTree)
    (topic : Topic) (d : Data) :
    (publishTop t parent topic d false).1.values = [] ∧
      (publishTop t parent topic d false).1.errors = [] := by
  by_cases hv : isVetoedComposed t.vetoes topic d = true
  · rw [publishTop.eq_def, if_pos hv]
    exact ⟨rfl, rfl⟩
  · rw [publishTop.eq_def, if_neg hv]
    simp only []
    rw [dispatchCombine_fst_forget]
    exact ⟨rfl, rfl⟩

theorem publishAsyncResult_single (topic : Topic) (r : MessageResult) (e : Nat)
    (h : r.errors = [e]) : publishAsyncResult topic r = .errSingle e := by
  unfold publishAsyncResult
  rw [h]

theorem publishAsyncResult_aggregate (topic : Topic) (r : MessageResult)
    (e1 e2 : Nat) (es : List Nat) (h : r.errors = e1 :: e2 :: es) :
    publishAsyncResult topic r = .errAggregate r.errors := by
  unfold publishAsyncResult
  rw [h]

end MB.Out

namespace MB

/-- Example multicast topic with `children` broadcast direction. -/
def exTopic : Topic := ⟨0, Mode.multicast, Direction.children⟩

/-- A bus with two subscribers whose handlers throw errors `101` and `102`. -/
def exFailTree : Out.BusTree :=
  .node [(exTopic, [⟨0, true, 1, fun _ => Except.error 101⟩,
                    ⟨1, true, 1, fun _ => Except.error 102⟩])] [] [] []

/-- C3: for every awaited publish, exactly one failing matched handler makes
the returned promise reject with that error as-is; two or more failing
handlers make it reject with one aggregate error carrying all individual
errors in invocation order; none of those failures reaches the error
callback.  For every fire-and-forget publish, nothing is surfaced to the
publisher, and each handler failure is forwarded individually to the error
callback (in the same order the awaited form would have aggregated them). -/
theorem claim_C3_awaited_error_aggregation (t : Out.BusTree)
    (parent : Option Out.BusTree) (topic : Topic) (d : Data) :
    (∀ e, (Out.publishTop t parent topic d true).1.errors = [e] →
        Out.publishAsyncResult topic (Out.publishTop t parent topic d true).1 =
          Out.PubOutcome.errSingle e) ∧
    (∀ e1 e2 es, (Out.publishTop t parent topic d true).1.errors = e1 :: e2 :: es →
        Out.publishAsyncResult topic (Out.publishTop t parent topic d true).1 =
          Out.PubOutcome.errAggregate (Out.publishTop t parent topic d true).1.errors) ∧
    Out.handlerPart (Out.publishTop t parent topic d true).2 = [] ∧
    Out.handlerPart (Out.publishTop t parent topic d false).2 =
      (Out.publishTop t parent topic d true).1.errors ∧
    (Out.publishTop t parent topic d false).1.values = [] ∧
    (Out.publishTop t parent topic d false).1.errors = [] :=
  ⟨fun e he => Out.publishAsyncResult_single topic _ e he,
   fun e1 e2 es he => Out.publishAsyncResult_aggregate topic _ e1 e2 es he,
   Out.publishTop_await_handlerPart t parent topic d,
   Out.publishTop_forget_handlerPart t parent topic d,
   (Out.publishTop_forget_fst t parent topic d).1,
   (Out.publishTop_forget_fst t parent topic d).2⟩

/-- Witness for C3 on a concrete bus with two failing handlers. -/
theorem claim_C3_awaited_error_aggregation_witness :
    (Out.publishTop exFailTree none exTopic 7 true).1.errors = [101, 102] ∧
    Out.publishAsyncResult exTopic
        (Out.publishTop exFailTree none exTopic 7 true).1 =
      Out.PubOutcome.errAggregate
        (Out.publishTop exFailTree none exTopic 7 true).1.errors ∧
    Out.handlerPart (Out.publishTop exFailTree none exTopic 7 false).2 =
      [101, 102] := by
  have h := claim_C3_awaited_error_aggregation exFailTree none exTopic 7
  have he : (Out.publishTop exFailTree none exTopic 7 true).1.errors =
      [101, 102] := by decide
  exact ⟨he, h.2.1 101 102 [] he, (h.2.2.2.1).trans he⟩

end MB

namespace MB.Reg

/-- `SubscriptionRegistry.add` appends at the end of the topic's
registration list: registration order is list order. -/
theorem registryGet_registryAdd (reg : Registry) (t : Topic) (r : RegId)
    (hr : r ∉ registryGet reg t) :
    registryGet (registryAdd reg t r) t = registryGet reg t ++ [r] := by
  induction reg with
  | nil => simp [registryAdd, registryGet, List.find?]
  | cons p rest ih =>
    obtain ⟨t', rs⟩ := p
    by_cases ht : t' = t
    · subst ht
      have hmem : r ∉ rs := by
        simpa [registryGet, List.find?] using hr
      simp [registryAdd, registryGet, List.find?, hmem]
    · have hr' : r ∉ registryGet rest t := by
        simpa [registryGet, List.find?, ht] using hr
      have h2 := ih hr'
      simp only [registryGet] at h2
      simp [registryAdd, registryGet, List.find?, ht, h2]

end MB.Reg

namespace MB

/-- C8: for every dispatch of one message on one bus, the active
registrations for the topic are invoked in ascending order of their
priority value (the list `dispatchMessage` iterates is
`sortByPriority (getAll topic true)`), equal priorities keep their relative
registry order (the sort is stable), the sorted list is a permutation of
the active list, and `SubscriptionRegistry.add` appends, so registry order
is subscription order. -/
theorem claim_C8_priority_sort_stable (registry : List (Topic × List Out.PReg))
    (topic : Topic) (reg : Reg.Registry) (t : Topic) (r : RegId)
    (hr : r ∉ Reg.registryGet reg t) :
    ((MB.PSort.sortByPriority (fun x => x.priority)
        (Out.getAllP registry topic true)).Pairwise
      (fun a b => a.priority ≤ b.priority)) ∧
    (∀ p : Int, (MB.PSort.sortByPriority (fun x => x.priority)
        (Out.getAllP registry topic true)).filter (fun x => x.priority = p) =
      (Out.getAllP registry topic true).filter (fun x => x.priority = p)) ∧
    (MB.PSort.sortByPriority (fun x => x.priority)
        (Out.getAllP registry topic true)).Perm
      (Out.getAllP registry topic true) ∧
    Reg.registryGet (Reg.registryAdd reg t r) t = Reg.registryGet reg t ++ [r] :=
  ⟨MB.PSort.sortByPriority_sorted _ _,
   fun p => MB.PSort.sortByPriority_stable _ _ p,
   MB.PSort.sortByPriority_perm _ _,
   Reg.registryGet_registryAdd reg t r hr⟩

/-- Two active same-priority registrations and one higher-priority (larger
value) registration, in mixed registry order. -/
def exRegsC8 : List (Topic × List Out.PReg) :=
  [(exTopic, [⟨0, true, 2, fun v => Except.ok v⟩,
              ⟨1, true, 1, fun v => Except.ok v⟩,
              ⟨2, true, 1, fun v => Except.ok v⟩])]

/-- Witness for C8 at a concrete registry. -/
theorem claim_C8_priority_sort_stable_witness :
    (0 : RegId) ∉ Reg.registryGet [] exTopic ∧
    ((MB.PSort.sortByPriority (fun x => x.priority)
        (Out.getAllP exRegsC8 exTopic true)).map (fun x => x.rid) = [1, 2, 0]) ∧
    Reg.registryGet (Reg.registryAdd [] exTopic 0) exTopic =
      Reg.registryGet [] exTopic ++ [0] := by
  refine ⟨by decide, by decide, ?_⟩
  exact (claim_C8_priority_sort_stable exRegsC8 exTopic [] exTopic 0 (by decide)).2.2.2

end MB

namespace MB.Reg

/-- Splitting a delivery sequence: running `a + b` deliveries is running
`a`, then `b` from the resulting state, with the delivered counts added. -/
theorem handlerRun_add (a b : Nat) : ∀ (reg : Registry) (h : HReg),
    handlerRun reg h (a + b) =
      ((handlerRun (handlerRun reg h a).1 (handlerRun reg h a).2.1 b).1,
       (handlerRun (handlerRun reg h a).1 (handlerRun reg h a).2.1 b).2.1,
       (handlerRun reg h a).2.2 +
         (handlerRun (handlerRun reg h a).1 (handlerRun reg h a).2.1 b).2.2) := by
  induction a with
  | zero =>
    intro reg h
    simp [handlerRun]
  | succ k ih =>
    intro reg h
    have hadd : (k + 1) + b = (k + b) + 1 := by omega
    rw [hadd]
    simp only [handlerRun]
    rw [ih]
    simp [Nat.add_assoc]

end MB.Reg

namespace MB.Reg

/-- Running `m` deliveries while the budget stays positive: every message is
delivered, the budget decreases by `m`, the registration stays registered
and undisposed. -/
theorem handlerRun_within_budget (m : Nat) : ∀ (reg : Registry) (h : HReg),
    (m : Int) ≤ h.remaining →
    handlerRun reg h m = (reg, { h with remaining := h.remaining - m }, m) := by
  induction m with
  | zero =>
    intro reg h _
    simp [handlerRun]
  | succ k ih =>
    intro reg h hle
    have hpos : 0 < h.remaining := by
      have : ((k : Int) + 1) ≤ h.remaining := by exact_mod_cast hle
      omega
    have hne : ¬h.remaining = 0 := by omega
    simp only [handlerRun, handlerInvoke, if_neg hne, if_pos hpos]
    rw [ih reg { h with remaining := h.remaining - 1 } (by push_cast; push_cast at hle; omega)]
    simp only []
    refine Prod.ext rfl (Prod.ext ?_ ?_)
    · show HReg.mk _ _ _ _ _ _ = HReg.mk _ _ _ _ _ _
      congr 1
      push_cast
      omega
    · simp [Nat.add_comm]

end MB.Reg

namespace MB.Out

/-- `dispatchMessage` computes `getAll(topic, /* activeOnly */ true)`: an
inactive registration is never part of the invoked list. -/
theorem getAllP_active (registry : List (Topic × List PReg)) (topic : Topic)
    (x : PReg) (hx : x ∈ getAllP registry topic true) : x.isActive = true := by
  unfold getAllP at hx
  simp only [if_pos rfl] at hx
  exact (List.mem_filter.mp hx).2

end MB.Out

namespace MB

/-- C5 counterexample: creating a handler-less (pull-based)
`LazyAsyncRegistration` immediately adds one registration to the registry
(the constructor loops `this.myRegistry.add(topic, this)`), so the registry
does not hold zero registrations for the never-pulled subscription. -/
theorem claim_C5_lazy_adds_registration_counterexample :
    Reg.registryAll
        (Reg.lazyConstructor [] 0 [exTopic] defaultLimit defaultPriority).1 =
      [0] ∧
    (Reg.registryAll
        (Reg.lazyConstructor [] 0 [exTopic] defaultLimit defaultPriority).1).length
      ≠ 0 := by
  decide

/-- C5 (amended): creating a pull-based subscription immediately adds a
registration to the registry for its topic, but marked inactive
(`isActive = false`); the first pull (`next`, to which `single` delegates)
marks it active; dispatch considers only active registrations, so a
never-pulled subscription is never handed a message. -/
theorem claim_C5_lazy_subscription_inactive (reg : Reg.Registry) (rid : RegId)
    (t : Topic) (limit priority : Int) (hr : rid ∉ Reg.registryGet reg t) :
    (Reg.lazyConstructor reg rid [t] limit priority).2.st.isActive = false ∧
    (Reg.lazyConstructor reg rid [t] limit priority).2.st.isDisposed = false ∧
    Reg.registryGet (Reg.lazyConstructor reg rid [t] limit priority).1 t =
      Reg.registryGet reg t ++ [rid] ∧
    (Reg.lazyNext (Reg.lazyConstructor reg rid [t] limit priority).2).1.st.isActive
      = true ∧
    (Reg.lazyNext (Reg.lazyConstructor reg rid [t] limit priority).2).2 =
      Reg.PullResult.pending ∧
    (∀ (registry : List (Topic × List Out.PReg)) (topic : Topic) (x : Out.PReg),
      x ∈ Out.getAllP registry topic true → x.isActive = true) := by
  refine ⟨rfl, rfl, ?_, rfl, rfl, fun registry topic x hx => Out.getAllP_active registry topic x hx⟩
  show Reg.registryGet (Reg.registryAdd reg t rid) t = Reg.registryGet reg t ++ [rid]
  exact Reg.registryGet_registryAdd reg t rid hr

/-- Witness for C5 (amended) at a concrete empty registry. -/
theorem claim_C5_lazy_subscription_inactive_witness :
    (0 : RegId) ∉ Reg.registryGet [] exTopic ∧
    (Reg.lazyConstructor [] 0 [exTopic] defaultLimit defaultPriority).2.st.isActive
      = false ∧
    Reg.registryGet
        (Reg.lazyConstructor [] 0 [exTopic] defaultLimit defaultPriority).1 exTopic
      = [0] := by
  refine ⟨by decide, ?_, ?_⟩
  · exact (claim_C5_lazy_subscription_inactive [] 0 exTopic defaultLimit
      defaultPriority (by decide)).1
  · have h := (claim_C5_lazy_subscription_inactive [] 0 exTopic defaultLimit
      defaultPriority (by decide)).2.2.1
    simpa using h

end MB

namespace MB

/-- C6 counterexample: with a message limit of 3, after the 3rd delivered
message the registration is **not** yet disposed and is still in the
registry (both for the eager `HandlerRegistration` and the pull-based
`LazyAsyncRegistration`); moreover the 4th pull of the pull-based variant
is left pending rather than observing termination.  Disposal happens only
on the next (4th) delivery attempt. -/
theorem claim_C6_counterexample :
    -- eager registration, limit 3, three deliveries
    ((Reg.handlerRun (Reg.handlerConstructor [] 0 [exTopic] 3 1).1
        (Reg.handlerConstructor [] 0 [exTopic] 3 1).2 3).2.2 = 3) ∧
    ((Reg.handlerRun (Reg.handlerConstructor [] 0 [exTopic] 3 1).1
        (Reg.handlerConstructor [] 0 [exTopic] 3 1).2 3).2.1.isDisposed = false) ∧
    (Reg.registryAll (Reg.handlerRun (Reg.handlerConstructor [] 0 [exTopic] 3 1).1
        (Reg.handlerConstructor [] 0 [exTopic] 3 1).2 3).1 = [0]) ∧
    -- pull-based registration, limit 3, three deliveries, then four pulls
    ((Reg.lazyHandler
        (Reg.lazyHandler
          (Reg.lazyHandler (Reg.lazyConstructor [] 0 [exTopic] 3 1).1
            (Reg.lazyConstructor [] 0 [exTopic] 3 1).2 11).1
          (Reg.lazyHandler (Reg.lazyConstructor [] 0 [exTopic] 3 1).1
            (Reg.lazyConstructor [] 0 [exTopic] 3 1).2 11).2.1 12).1
        (Reg.lazyHandler
          (Reg.lazyHandler (Reg.lazyConstructor [] 0 [exTopic] 3 1).1
            (Reg.lazyConstructor [] 0 [exTopic] 3 1).2 11).1
          (Reg.lazyHandler (Reg.lazyConstructor [] 0 [exTopic] 3 1).1
            (Reg.lazyConstructor [] 0 [exTopic] 3 1).2 11).2.1 12).2.1 13).2.1.st.isDisposed
      = false) ∧
    ((Reg.lazyNext (Reg.lazyNext (Reg.lazyNext (Reg.lazyNext
        (Reg.lazyHandler
          (Reg.lazyHandler
            (Reg.lazyHandler (Reg.lazyConstructor [] 0 [exTopic] 3 1).1
              (Reg.lazyConstructor [] 0 [exTopic] 3 1).2 11).1
            (Reg.lazyHandler (Reg.lazyConstructor [] 0 [exTopic] 3 1).1
              (Reg.lazyConstructor [] 0 [exTopic] 3 1).2 11).2.1 12).1
          (Reg.lazyHandler
            (Reg.lazyHandler (Reg.lazyConstructor [] 0 [exTopic] 3 1).1
              (Reg.lazyConstructor [] 0 [exTopic] 3 1).2 11).1
            (Reg.lazyHandler (Reg.lazyConstructor [] 0 [exTopic] 3 1).1
              (Reg.lazyConstructor [] 0 [exTopic] 3 1).2 11).2.1 12).2.1 13).2.1).1).1).1).2
      = Reg.PullResult.pending) := by
  decide

end MB

namespace MB

/-- C6 (amended): for a registration with limit `n > 0`, the budget
decrements on each delivered item and the first `n` messages are all
delivered; after the `n`-th delivery the budget is exhausted
(`remaining = 0`) but the registration is still registered and not yet
disposed — it is the `(n+1)`-th delivery attempt that finds `remaining = 0`,
delivers nothing, disposes the registration and removes it from the
registry; once disposed, a pull finding an empty backlog observes
termination. -/
theorem claim_C6_limit_disposes_on_next_attempt (n : Nat) (hn : 0 < n)
    (t : Topic) (rid : RegId) :
    ((Reg.handlerRun (Reg.handlerConstructor [] rid [t] (n : Int) 1).1
        (Reg.handlerConstructor [] rid [t] (n : Int) 1).2 n).2.2 = n) ∧
    ((Reg.handlerRun (Reg.handlerConstructor [] rid [t] (n : Int) 1).1
        (Reg.handlerConstructor [] rid [t] (n : Int) 1).2 n).2.1.remaining = 0) ∧
    ((Reg.handlerRun (Reg.handlerConstructor [] rid [t] (n : Int) 1).1
        (Reg.handlerConstructor [] rid [t] (n : Int) 1).2 n).2.1.isDisposed = false) ∧
    (Reg.registryAll (Reg.handlerRun (Reg.handlerConstructor [] rid [t] (n : Int) 1).1
        (Reg.handlerConstructor [] rid [t] (n : Int) 1).2 n).1 = [rid]) ∧
    ((Reg.handlerRun (Reg.handlerConstructor [] rid [t] (n : Int) 1).1
        (Reg.handlerConstructor [] rid [t] (n : Int) 1).2 (n + 1)).2.2 = n) ∧
    ((Reg.handlerRun (Reg.handlerConstructor [] rid [t] (n : Int) 1).1
        (Reg.handlerConstructor [] rid [t] (n : Int) 1).2 (n + 1)).2.1.isDisposed
      = true) ∧
    (Reg.registryAll (Reg.handlerRun (Reg.handlerConstructor [] rid [t] (n : Int) 1).1
        (Reg.handlerConstructor [] rid [t] (n : Int) 1).2 (n + 1)).1 = []) ∧
    (∀ r : Reg.LazyReg, r.st.isDisposed = true → r.st.dataQueue = [] →
      (Reg.lazyNext r).2 = Reg.PullResult.done) := by
  have hc : Reg.handlerConstructor [] rid [t] (n : Int) 1 =
      ([(t, [rid])],
       { rid := rid, topics := [t], isActive := true, isDisposed := false,
         remaining := (n : Int), priority := 1 }) := rfl
  have hrun := Reg.handlerRun_within_budget n [(t, [rid])]
    { rid := rid, topics := [t], isActive := true, isDisposed := false,
      remaining := (n : Int), priority := 1 } (le_refl _)
  simp only [Int.sub_self] at hrun
  have hrun1 := Reg.handlerRun_add n 1 [(t, [rid])]
    { rid := rid, topics := [t], isActive := true, isDisposed := false,
      remaining := (n : Int), priority := 1 }
  rw [hrun] at hrun1
  simp only [] at hrun1
  have hstep : Reg.handlerRun [(t, [rid])]
      { rid := rid, topics := [t], isActive := true, isDisposed := false,
        remaining := (0 : Int), priority := 1 } 1 =
      ([(t, [])],
       { rid := rid, topics := [t], isActive := false, isDisposed := true,
         remaining := (0 : Int), priority := 1 }, 0) := by
    simp [Reg.handlerRun, Reg.handlerInvoke, Reg.handlerDispose,
      Reg.registryRemove, List.eraseP]
  rw [hstep] at hrun1
  rw [hc, hrun, hrun1]
  refine ⟨rfl, rfl, rfl, by simp [Reg.registryAll], by simp, rfl, by simp [Reg.registryAll], ?_⟩
  intro r h1 h2
  unfold Reg.lazyNext
  rw [h2]
  simp [h1]

/-- Witness for C6 (amended) at limit 3. -/
theorem claim_C6_limit_disposes_on_next_attempt_witness :
    (0 : Nat) < 3 ∧
    ((Reg.handlerRun (Reg.handlerConstructor [] 0 [exTopic] (3 : Int) 1).1
        (Reg.handlerConstructor [] 0 [exTopic] (3 : Int) 1).2 3).2.2 = 3) ∧
    ((Reg.handlerRun (Reg.handlerConstructor [] 0 [exTopic] (3 : Int) 1).1
        (Reg.handlerConstructor [] 0 [exTopic] (3 : Int) 1).2 4).2.1.isDisposed
      = true) := by
  have h := claim_C6_limit_disposes_on_next_attempt 3 (by decide) exTopic 0
  exact ⟨by decide, h.1, h.2.2.2.2.2.1⟩

end MB

namespace MB

/-- The distinct synchronous `check`/`error` failures of the subscription
surface (`errors.ts` tags each with a message; the message text is
abbreviated to a tag here). -/
inductive SubErr where
  /-- `the limit value must be greater than 0, but is ...` -/
  | limitNotPositive
  /-- `setting a limit is not supported with subscribeOnce` -/
  | subscribeOnceLimit
  /-- `at least one topic must be provided for subscription` -/
  | noTopics
  /-- `... allows only a single subscription` -/
  | unicastConflict
  /-- `the message bus is disposed` -/
  | busDisposed
deriving DecidableEq, Repr

end MB

namespace MB.Bld

/-!
## Fluent subscription builder

Embeds `SubscriptionBuilderImpl` (subscriptionBuilderImpl.ts) together with
`MessageBusImpl.withLimit` / `withPriority` (messageBusImpl.ts lines
233-242) and the registration-creating tail of `subscribeImpl` (lines
212-231) against a single bus's registry. `checkDisposed` and the
tree-wide `hasSubscription` scan are modelled in the hierarchy model; on a
single root bus the scan inspects exactly this registry, which is what
`registryHas` expresses here.
-/

/-- `SubscriptionBuilderImpl`'s captured pending values. -/
structure SubscriptionBuilderImpl where
  myLimit : Int
  myPriority : Int
deriving DecidableEq, Repr

/-- `MessageBusImpl.withLimit` (lines 233-237): fails unless `limit > 0`,
then captures it next to the default priority. -/
def busWithLimit (limit : Int) : Except SubErr SubscriptionBuilderImpl :=
  if limit > 0 then .ok ⟨limit, defaultPriority⟩
  else .error SubErr.limitNotPositive

/-- `MessageBusImpl.withPriority` (lines 239-242): captures the priority
next to the default (unlimited) limit, with no validation. -/
def busWithPriority (priority : Int) : SubscriptionBuilderImpl :=
  ⟨defaultLimit, priority⟩

/-- `SubscriptionBuilderImpl.withLimit` (lines 20-24). -/
def builderWithLimit (b : SubscriptionBuilderImpl) (limit : Int) :
    Except SubErr SubscriptionBuilderImpl :=
  if limit > 0 then .ok { b with myLimit := limit }
  else .error SubErr.limitNotPositive

/-- `SubscriptionBuilderImpl.withPriority` (lines 26-29). -/
def builderWithPriority (b : SubscriptionBuilderImpl) (priority : Int) :
    SubscriptionBuilderImpl :=
  { b with myPriority := priority }

/-- The registration-creating tail of `MessageBusImpl.subscribeImpl` (lines
212-231) with a handler present: topics must be non-empty, every
non-multicast topic must have no existing subscription, then a
`HandlerRegistration` is constructed (which registers itself). -/
def subscribeImplM (reg : Reg.Registry) (topics : List Topic)
    (limit priority : Int) (rid : RegId) :
    Except SubErr (Reg.Registry × Reg.HReg) :=
  if topics.length = 0 then .error SubErr.noTopics
  else if topics.any (fun t => decide (t.mode ≠ Mode.multicast) && Reg.registryHas reg t) then
    .error SubErr.unicastConflict
  else .ok (Reg.handlerConstructor reg rid topics limit priority)

/-- `SubscriptionBuilderImpl.subscribe` (lines 35-37): forwards the captured
limit and priority. -/
def builderSubscribe (b : SubscriptionBuilderImpl) (reg : Reg.Registry)
    (topics : List Topic) (rid : RegId) :
    Except SubErr (Reg.Registry × Reg.HReg) :=
  subscribeImplM reg topics b.myLimit b.myPriority rid

/-- `SubscriptionBuilderImpl.subscribeOnce` (lines 43-49):
`check(this.myLimit === 1, "setting a limit is not supported with
subscribeOnce")`, then `subscribeImpl(topic, handler, 1, defaultPriority)`
— note the hard-coded `defaultPriority`. -/
def builderSubscribeOnce (b : SubscriptionBuilderImpl) (reg : Reg.Registry)
    (topics : List Topic) (rid : RegId) :
    Except SubErr (Reg.Registry × Reg.HReg) :=
  if b.myLimit = 1 then subscribeImplM reg topics 1 defaultPriority rid
  else .error SubErr.subscribeOnceLimit

/-- `registryAdd` on one topic leaves every other topic's list unchanged. -/
theorem registryGet_registryAdd_ne (reg : Reg.Registry) (t t' : Topic)
    (r : RegId) (ht : t' ≠ t) :
    Reg.registryGet (Reg.registryAdd reg t r) t' = Reg.registryGet reg t' := by
  have ht2 : ¬(t = t') := fun h => ht h.symm
  induction reg with
  | nil => simp [Reg.registryAdd, Reg.registryGet, List.find?, ht2]
  | cons p rest ih =>
    obtain ⟨tp, rs⟩ := p
    by_cases htp : tp = t
    · have htp2 : ¬(tp = t') := fun h => ht2 (htp ▸ h)
      by_cases hmem : r ∈ rs
      · simp [Reg.registryAdd, Reg.registryGet, List.find?, htp, hmem]
      · simp [Reg.registryAdd, Reg.registryGet, List.find?, htp, hmem, htp2,
          decide_eq_false ht2]
    · by_cases htq : tp = t'
      · simp [Reg.registryAdd, Reg.registryGet, List.find?, htp, htq, ht]
      · have ih2 := ih
        simp only [Reg.registryGet] at ih2
        simp [Reg.registryAdd, Reg.registryGet, List.find?, htp, htq, ht, ih2]

end MB.Bld

namespace MB

/-- C9 counterexample: `bus.withPriority(5).subscribeOnce(topic)` does not
create a one-shot registration with priority 5 — it throws
`setting a limit is not supported with subscribeOnce`, because the builder's
captured limit is the default `-1` and `subscribeOnce` requires it to be
exactly `1`; and even `bus.withLimit(1).withPriority(5).subscribeOnce`
creates the registration with `defaultPriority = 1`, ignoring the captured
priority. -/
theorem claim_C9_subscribeOnce_counterexample :
    Bld.builderSubscribeOnce (Bld.busWithPriority 5) [] [exTopic] 0 =
      Except.error SubErr.subscribeOnceLimit ∧
    Bld.builderSubscribeOnce (Bld.builderWithPriority
        (Bld.SubscriptionBuilderImpl.mk 1 1) 5) [] [exTopic] 0 =
      Except.ok (Reg.registryAdd [] exTopic 0,
        { rid := 0, topics := [exTopic], isActive := true, isDisposed := false,
          remaining := 1, priority := defaultPriority }) ∧
    defaultPriority ≠ 5 :=
  ⟨rfl, rfl, by decide⟩

/-- C9 (amended): `withLimit` (on the bus and on the builder) throws
synchronously for every limit value not greater than 0; the captured limit
and priority are both applied to the next `subscribe` call issued through
the builder; `subscribeOnce` through the builder throws unless the captured
limit is exactly 1, and when it is, creates a one-shot registration with
`defaultPriority`, ignoring any captured priority override; previously
created registrations (any other topic's list, and the earlier entries of
this topic's list) are unaffected. -/
theorem claim_C9_builder_applies_overrides (limit priority : Int)
    (reg : Reg.Registry) (t : Topic) (rid : RegId)
    (b : Bld.SubscriptionBuilderImpl) (hl : limit ≤ 0)
    (ht : t.mode = Mode.multicast) (hr : rid ∉ Reg.registryGet reg t) :
    Bld.busWithLimit limit = Except.error SubErr.limitNotPositive ∧
    Bld.builderWithLimit b limit = Except.error SubErr.limitNotPositive ∧
    Bld.busWithPriority priority = ⟨defaultLimit, priority⟩ ∧
    Bld.builderSubscribe b reg [t] rid =
      Except.ok (Reg.registryAdd reg t rid,
        { rid := rid, topics := [t], isActive := true, isDisposed := false,
          remaining := b.myLimit, priority := b.myPriority }) ∧
    (b.myLimit = 1 → Bld.builderSubscribeOnce b reg [t] rid =
      Except.ok (Reg.registryAdd reg t rid,
        { rid := rid, topics := [t], isActive := true, isDisposed := false,
          remaining := 1, priority := defaultPriority })) ∧
    (b.myLimit ≠ 1 → Bld.builderSubscribeOnce b reg [t] rid =
      Except.error SubErr.subscribeOnceLimit) ∧
    (∀ t', t' ≠ t → Reg.registryGet (Reg.registryAdd reg t rid) t' =
      Reg.registryGet reg t') ∧
    Reg.registryGet (Reg.registryAdd reg t rid) t =
      Reg.registryGet reg t ++ [rid] := by
  have hnl : ¬limit > 0 := by omega
  refine ⟨by simp [Bld.busWithLimit, hnl], by simp [Bld.builderWithLimit, hnl],
    rfl, ?_, ?_, ?_, fun t' ht' => Bld.registryGet_registryAdd_ne reg t t' rid ht',
    Reg.registryGet_registryAdd reg t rid hr⟩
  · simp [Bld.builderSubscribe, Bld.subscribeImplM, ht, Reg.handlerConstructor]
  · intro h1
    simp [Bld.builderSubscribeOnce, h1, Bld.subscribeImplM, ht, Reg.handlerConstructor]
  · intro h1
    simp [Bld.builderSubscribeOnce, h1]

/-- Witness for C9 (amended). -/
theorem claim_C9_builder_applies_overrides_witness :
    ((0 : Int) ≤ 0 ∧ exTopic.mode = Mode.multicast ∧
      (0 : RegId) ∉ Reg.registryGet [] exTopic) ∧
    Bld.busWithLimit 0 = Except.error SubErr.limitNotPositive ∧
    Bld.builderSubscribe (Bld.busWithPriority 7) [] [exTopic] 0 =
      Except.ok (Reg.registryAdd [] exTopic 0,
        { rid := 0, topics := [exTopic], isActive := true, isDisposed := false,
          remaining := defaultLimit, priority := 7 }) ∧
    Bld.builderSubscribeOnce (Bld.busWithPriority 7) [] [exTopic] 0 =
      Except.error SubErr.subscribeOnceLimit := by
  have h := claim_C9_builder_applies_overrides 0 7 [] exTopic 0
    (Bld.busWithPriority 7) (by decide) (by decide) (by decide)
  exact ⟨⟨by decide, by decide, by decide⟩, h.1, h.2.2.2.1, h.2.2.2.2.2.1 (by decide)⟩

end MB

namespace MB.Tree

/-!
## Bus hierarchy model (subscription-state view)

Embeds the bus tree as `subscribeImpl` and `hasSubscription` see it: each
node is a bus owning a `SubscriptionRegistry`; `hasSubscription`
(messageBusImpl.ts lines 425-441) walks to `getRootBus()` and scans the
whole tree with `registryHas` per node, so from any bus of a hierarchy the
scan covers exactly the hierarchy's tree.  Operations address a bus by its
child-index path from the root.  `dispose` detaches the bus from its
parent's child set and disposes all registrations of the subtree
(messageBusImpl.ts lines 268-294), so a disposed bus is modelled as removed
from the tree; subscribing through a dangling path is the `checkDisposed`
failure.
-/

/-- A bus hierarchy: each node owns a registry, children in insertion
order. -/
inductive HTree where
  | node (registry : Reg.Registry) (children : List HTree)

mutual

/-- `hasSubscription`'s scan over the whole tree: some node's registry
`has` the topic (the source's explicit-stack traversal visits the same node
set; `Bool` disjunction is order-independent). -/
def treeHas : HTree → Topic → Bool
  | .node r cs, t => Reg.registryHas r t || treeHasList cs t

def treeHasList : List HTree → Topic → Bool
  | [], _ => false
  | c :: cs, t => treeHas c t || treeHasList cs t

end

mutual

/-- Total number of registration entries for a topic across the tree. -/
def treeCount : HTree → Topic → Nat
  | .node r cs, t => (Reg.registryGet r t).length + treeCountList cs t

def treeCountList : List HTree → Topic → Nat
  | [], _ => 0
  | c :: cs, t => treeCount c t + treeCountList cs t

end

mutual

/-- The bus at a child-index path, if it exists (not disposed). -/
def subAt : HTree → List Nat → Option HTree
  | t, [] => some t
  | .node _ cs, i :: p => subAtList cs i p

def subAtList : List HTree → Nat → List Nat → Option HTree
  | [], _, _ => none
  | c :: _, 0, p => subAt c p
  | _ :: cs, i + 1, p => subAtList cs i p

end

mutual

/-- Apply a registry transformation at the addressed bus (the mutation a
subscribe / unsubscribe performs on that bus's own registry). -/
def mapRegistryAt : HTree → List Nat → (Reg.Registry → Reg.Registry) → HTree
  | .node r cs, [], f => .node (f r) cs
  | .node r cs, i :: p, f => .node r (mapRegistryChildren cs i p f)

def mapRegistryChildren :
    List HTree → Nat → List Nat → (Reg.Registry → Reg.Registry) → List HTree
  | [], _, _, _ => []
  | c :: cs, 0, p, f => mapRegistryAt c p f :: cs
  | c :: cs, i + 1, p, f => c :: mapRegistryChildren cs i p f

end

mutual

/-- `createChildBus` at the addressed bus: a fresh bus with an empty
registry is appended to the child set. -/
def createChildOp : HTree → List Nat → HTree
  | .node r cs, [] => .node r (cs ++ [.node [] []])
  | .node r cs, i :: p => .node r (createChildChildren cs i p)

def createChildChildren : List HTree → Nat → List Nat → List HTree
  | [], _, _ => []
  | c :: cs, 0, p => createChildOp c p :: cs
  | c :: cs, i + 1, p => c :: createChildChildren cs i p

end

mutual

/-- `dispose` of the addressed bus: every registration of the subtree is
disposed (removed from its registry) and the bus is detached from its
parent's child set; disposing the root leaves an empty, unusable root. -/
def disposeOp : HTree → List Nat → HTree
  | .node _ _, [] => .node [] []
  | .node r cs, i :: p => .node r (disposeChildren cs i p)

def disposeChildren : List HTree → Nat → List Nat → List HTree
  | [], _, _ => []
  | _ :: cs, 0, [] => cs
  | c :: cs, 0, i' :: p => disposeOp c (i' :: p) :: cs
  | c :: cs, i + 1, p => c :: disposeChildren cs i p

end

/-- `MessageBusImpl.subscribeImpl` (lines 212-231) invoked on the bus at
path `p` of hierarchy `s`: `checkDisposed` (dangling path), the non-empty
topics check, then for each topic
`check(topic.mode === "multicast" || !this.hasSubscription(topic))` — the
scan starting from the hierarchy root — and finally the registration
constructor adds the new registration to the bus's registry under each
topic. -/
def subscribeOp (s : HTree) (p : List Nat) (topics : List Topic)
    (rid : RegId) : Except SubErr HTree :=
  match subAt s p with
  | none => .error SubErr.busDisposed
  | some _ =>
    if topics.length = 0 then .error SubErr.noTopics
    else if topics.any (fun t => decide (t.mode ≠ Mode.multicast) && treeHas s t) then
      .error SubErr.unicastConflict
    else
      .ok (mapRegistryAt s p
        (fun reg => topics.foldl (fun acc t => Reg.registryAdd acc t rid) reg))

/-- `Registration.dispose` of a registration living on the bus at path `p`:
removes it from that bus's registry under each of its topics. -/
def unsubscribeOp (s : HTree) (p : List Nat) (topics : List Topic)
    (rid : RegId) : HTree :=
  mapRegistryAt s p
    (fun reg => topics.foldl (fun acc t => Reg.registryRemove acc t rid) reg)

/-- The hierarchy states reachable from a fresh root bus through the
subscription-state operations.  (`topics.Nodup`: passing the same topic
object twice in one subscribe call makes the second `registry.add` throw
its duplicate-registration error before any message can be observed, so
such calls never produce a new state.) -/
inductive Reach : HTree → Prop where
  | root : Reach (.node [] [])
  | subscribe {s s' : HTree} {p : List Nat} {topics : List Topic} {rid : RegId} :
      Reach s → topics.Nodup → subscribeOp s p topics rid = .ok s' → Reach s'
  | child {s : HTree} {p : List Nat} : Reach s → Reach (createChildOp s p)
  | disposeB {s : HTree} {p : List Nat} : Reach s → Reach (disposeOp s p)
  | unsub {s : HTree} {p : List Nat} {topics : List Topic} {rid : RegId} :
      Reach s → Reach (unsubscribeOp s p topics rid)

end MB.Tree

namespace MB.Tree

/-- `registry.has(topic) = false` means the topic's list is absent or
empty. -/
theorem registryHas_false_length (reg : Reg.Registry) (t : Topic)
    (h : Reg.registryHas reg t = false) : (Reg.registryGet reg t).length = 0 := by
  unfold Reg.registryHas at h
  unfold Reg.registryGet
  cases hf : reg.find? (fun p => p.1 = t) with
  | none => simp
  | some p =>
    rw [hf] at h
    simp only [decide_eq_false_iff_not, not_lt, Nat.le_zero] at h
    simpa using h

mutual

theorem treeHas_false_count : ∀ (s : HTree) (t : Topic),
    treeHas s t = false → treeCount s t = 0
  | .node r cs, t, h => by
    rw [treeHas] at h
    rcases Bool.or_eq_false_iff.mp h with ⟨h1, h2⟩
    rw [treeCount, registryHas_false_length r t h1,
      treeHasList_false_count cs t h2]

theorem treeHasList_false_count : ∀ (cs : List HTree) (t : Topic),
    treeHasList cs t = false → treeCountList cs t = 0
  | [], _, _ => rfl
  | c :: cs, t, h => by
    rw [treeHasList] at h
    rcases Bool.or_eq_false_iff.mp h with ⟨h1, h2⟩
    rw [treeCountList, treeHas_false_count c t h1,
      treeHasList_false_count cs t h2]

end

/-- Adding under topic `t` grows `t`'s list by at most one entry. -/
theorem length_registryGet_registryAdd_self (reg : Reg.Registry) (t : Topic)
    (r : RegId) :
    (Reg.registryGet (Reg.registryAdd reg t r) t).length ≤
      (Reg.registryGet reg t).length + 1 := by
  induction reg with
  | nil => simp [Reg.registryAdd, Reg.registryGet, List.find?]
  | cons q rest ih =>
    obtain ⟨tp, rs⟩ := q
    by_cases htp : tp = t
    · subst htp
      by_cases hmem : r ∈ rs
      · simp [Reg.registryAdd, Reg.registryGet, List.find?, hmem]
      · simp [Reg.registryAdd, Reg.registryGet, List.find?, hmem]
    · simp only [Reg.registryAdd, if_neg htp]
      have ih2 := ih
      simp only [Reg.registryGet] at ih2 ⊢
      simp [List.find?, htp, ih2]

/-- The registration-constructor loop `for (const topic of topics)
registry.add(topic, this)` grows topic `t`'s list by at most the number of
occurrences of `t` among `topics`. -/
theorem length_registryGet_addAll (topics : List Topic) :
    ∀ (reg : Reg.Registry) (t : Topic) (rid : RegId),
      (Reg.registryGet (topics.foldl
          (fun acc t' => Reg.registryAdd acc t' rid) reg) t).length ≤
        (Reg.registryGet reg t).length + topics.count t := by
  induction topics with
  | nil => intro reg t rid; simp
  | cons t' rest ih =>
    intro reg t rid
    simp only [List.foldl_cons]
    by_cases h : t' = t
    · subst h
      have h1 := ih (Reg.registryAdd reg t' rid) t' rid
      have h2 := length_registryGet_registryAdd_self reg t' rid
      have h3 : (t' :: rest).count t' = rest.count t' + 1 := by
        simp [List.count_cons]
      omega
    · have h1 := ih (Reg.registryAdd reg t' rid) t rid
      have h2 := Bld.registryGet_registryAdd_ne reg t' t rid (fun hh => h hh.symm)
      have h3 : (t' :: rest).count t = rest.count t := by
        simp [List.count_cons, h]
      rw [h2] at h1
      omega

end MB.Tree

namespace MB.Tree

/-- If the registry transformation grows the addressed bus's list for `t`
by at most `k` entries, the tree-wide count grows by at most `k`. -/
theorem treeCount_mapRegistryAt_le (t : Topic) (k : Nat)
    (f : Reg.Registry → Reg.Registry)
    (hf : ∀ reg, (Reg.registryGet (f reg) t).length ≤
      (Reg.registryGet reg t).length + k) :
    ∀ (p : List Nat) (s : HTree),
      treeCount (mapRegistryAt s p f) t ≤ treeCount s t + k := by
  intro p
  induction p with
  | nil =>
    intro s
    cases s with
    | node r cs =>
      rw [mapRegistryAt, treeCount, treeCount]
      have := hf r
      omega
  | cons i p ih =>
    intro s
    cases s with
    | node r cs =>
      rw [mapRegistryAt, treeCount, treeCount]
      have haux : ∀ (cs : List HTree) (i : Nat),
          treeCountList (mapRegistryChildren cs i p f) t ≤ treeCountList cs t + k := by
        intro cs
        induction cs with
        | nil => intro i; rw [mapRegistryChildren]; omega
        | cons c cs ihc =>
          intro i
          cases i with
          | zero =>
            rw [mapRegistryChildren, treeCountList, treeCountList]
            have := ih c
            omega
          | succ j =>
            rw [mapRegistryChildren, treeCountList, treeCountList]
            have := ihc j
            omega
      have := haux cs i
      omega

theorem treeCountList_append (a b : List HTree) (t : Topic) :
    treeCountList (a ++ b) t = treeCountList a t + treeCountList b t := by
  induction a with
  | nil => simp [treeCountList]
  | cons c cs ih =>
    rw [List.cons_append, treeCountList, treeCountList, ih]
    omega

/-- Creating a child bus (empty registry) does not change any topic's
tree-wide count. -/
theorem treeCount_createChildOp (t : Topic) :
    ∀ (p : List Nat) (s : HTree),
      treeCount (createChildOp s p) t = treeCount s t := by
  intro p
  induction p with
  | nil =>
    intro s
    cases s with
    | node r cs =>
      rw [createChildOp, treeCount, treeCount, treeCountList_append]
      simp [treeCountList, treeCount, Reg.registryGet, List.find?]
  | cons i p ih =>
    intro s
    cases s with
    | node r cs =>
      rw [createChildOp, treeCount, treeCount]
      have haux : ∀ (cs : List HTree) (i : Nat),
          treeCountList (createChildChildren cs i p) t = treeCountList cs t := by
        intro cs
        induction cs with
        | nil => intro i; rw [createChildChildren]
        | cons c cs ihc =>
          intro i
          cases i with
          | zero =>
            simp only [createChildChildren, treeCountList, ih c]
          | succ j =>
            simp only [createChildChildren, treeCountList, ihc j]
      rw [haux cs i]

/-- Disposing a bus only removes registrations: no topic's tree-wide count
increases. -/
theorem treeCount_disposeOp_le (t : Topic) :
    ∀ (p : List Nat) (s : HTree),
      treeCount (disposeOp s p) t ≤ treeCount s t := by
  intro p
  induction p with
  | nil =>
    intro s
    cases s with
    | node r cs =>
      rw [disposeOp, treeCount, treeCount]
      simp [treeCountList, Reg.registryGet, List.find?]
  | cons i p ih =>
    intro s
    cases s with
    | node r cs =>
      rw [disposeOp, treeCount, treeCount]
      have haux : ∀ (cs : List HTree) (i : Nat),
          treeCountList (disposeChildren cs i p) t ≤ treeCountList cs t := by
        intro cs
        induction cs with
        | nil => intro i; rw [disposeChildren]
        | cons c cs ihc =>
          intro i
          cases i with
          | zero =>
            cases p with
            | nil =>
              rw [disposeChildren, treeCountList]
              omega
            | cons i' p' =>
              rw [disposeChildren, treeCountList, treeCountList]
              have := ih c
              omega
          | succ j =>
            rw [disposeChildren, treeCountList, treeCountList]
            have := ihc j
            omega
      have := haux cs i
      omega

/-- `registryGet` on a cons cell. -/
theorem registryGet_cons (q : Topic × List RegId) (rest : Reg.Registry)
    (t : Topic) :
    Reg.registryGet (q :: rest) t =
      if q.1 = t then q.2 else Reg.registryGet rest t := by
  by_cases h : q.1 = t
  · simp [Reg.registryGet, List.find?, h]
  · simp [Reg.registryGet, List.find?, h]

/-- `registryRemove` on a cons cell. -/
theorem registryRemove_cons (q : Topic × List RegId) (rest : Reg.Registry)
    (t' : Topic) (r : RegId) :
    Reg.registryRemove (q :: rest) t' r =
      (if q.1 = t' then (q.1, q.2.eraseP (fun x => x = r)) else q) ::
        Reg.registryRemove rest t' r := rfl

/-- `registry.remove` never grows a topic's list. -/
theorem length_registryGet_registryRemove_le (reg : Reg.Registry)
    (t' : Topic) (r : RegId) (t : Topic) :
    (Reg.registryGet (Reg.registryRemove reg t' r) t).length ≤
      (Reg.registryGet reg t).length := by
  induction reg with
  | nil => simp [Reg.registryRemove, Reg.registryGet, List.find?]
  | cons q rest ih =>
    obtain ⟨tp, rs⟩ := q
    rw [registryRemove_cons, registryGet_cons, registryGet_cons]
    by_cases htp : tp = t'
    · simp only [if_pos htp]
      by_cases htq : tp = t
      · simp [htq, List.length_eraseP_le]
      · simp [htq, ih]
    · simp only [if_neg htp]
      by_cases htq : tp = t
      · simp [htq]
      · simp [htq, ih]

/-- The `Registration.dispose` loop over its topics never grows any
topic's list. -/
theorem length_registryGet_removeAll (topics : List Topic) :
    ∀ (reg : Reg.Registry) (t : Topic) (rid : RegId),
      (Reg.registryGet (topics.foldl
          (fun acc t' => Reg.registryRemove acc t' rid) reg) t).length ≤
        (Reg.registryGet reg t).length + 0 := by
  induction topics with
  | nil => intro reg t rid; simp
  | cons t' rest ih =>
    intro reg t rid
    simp only [List.foldl_cons]
    have h1 := ih (Reg.registryRemove reg t' rid) t rid
    have h2 := length_registryGet_registryRemove_le reg t' rid t
    omega

end MB.Tree

namespace MB.Tree

/-- The tree-wide unicast invariant: every hierarchy state reachable from a
fresh root holds at most one registration entry for each unicast topic. -/
theorem reach_unicast_at_most_one {s : HTree} (hs : Reach s) (t : Topic)
    (ht : t.mode = Mode.unicast) : treeCount s t ≤ 1 := by
  induction hs with
  | root => simp [treeCount, treeCountList, Reg.registryGet, List.find?]
  | @subscribe s s' p topics rid hre hnd hok ih =>
    unfold subscribeOp at hok
    cases hsub : subAt s p with
    | none => rw [hsub] at hok; exact absurd hok (by simp)
    | some b =>
      rw [hsub] at hok
      by_cases h0 : topics.length = 0
      · rw [if_pos h0] at hok
        exact absurd hok (by simp)
      · rw [if_neg h0] at hok
        by_cases hany : topics.any
            (fun t' => decide (t'.mode ≠ Mode.multicast) && treeHas s t') = true
        · rw [if_pos hany] at hok
          exact absurd hok (by simp)
        · rw [if_neg hany] at hok
          have hs' : s' = mapRegistryAt s p
              (fun reg => topics.foldl (fun acc t' => Reg.registryAdd acc t' rid) reg) := by
            cases hok
            rfl
          subst hs'
          have hb := treeCount_mapRegistryAt_le t (topics.count t)
            (fun reg => topics.foldl (fun acc t' => Reg.registryAdd acc t' rid) reg)
            (fun reg => length_registryGet_addAll topics reg t rid) p s
          by_cases hmem : t ∈ topics
          · have hthas : treeHas s t = false := by
              by_contra hh
              have hh2 : treeHas s t = true := by
                cases hhh : treeHas s t
                · exact absurd hhh hh
                · rfl
              have : topics.any
                  (fun t' => decide (t'.mode ≠ Mode.multicast) && treeHas s t') = true :=
                List.any_eq_true.mpr ⟨t, hmem, by simp [ht, hh2]⟩
              exact hany this
            have h0' : treeCount s t = 0 := treeHas_false_count s t hthas
            have hcnt : topics.count t ≤ 1 := List.nodup_iff_count_le_one.mp hnd t
            omega
          · have hc0 : topics.count t = 0 := List.count_eq_zero.mpr hmem
            omega
  | @child s p hre ih =>
    rw [treeCount_createChildOp]
    exact ih
  | @disposeB s p hre ih =>
    exact le_trans (treeCount_disposeOp_le t p s) ih
  | @unsub s p topics rid hre ih =>
    have hb := treeCount_mapRegistryAt_le t 0
      (fun reg => topics.foldl (fun acc t' => Reg.registryRemove acc t' rid) reg)
      (fun reg => length_registryGet_removeAll topics reg t rid) p s
    unfold unsubscribeOp
    omega

end MB.Tree

namespace MB

/-- C4: a unicast (single-cardinality) topic has at most one registration
entry across the entire bus tree in every reachable hierarchy state; a
second subscribe to it on any (live) bus of the same hierarchy fails
synchronously with the `allows only a single subscription` error, while a
subscribe on a hierarchy whose own tree-wide scan finds nothing (in
particular a completely separate hierarchy, since `hasSubscription` only
walks the hierarchy of the bus subscribing) succeeds. -/
theorem claim_C4_unicast_single_registration (t : Topic)
    (ht : t.mode = Mode.unicast) (s : Tree.HTree) (hs : Tree.Reach s)
    (p : List Nat) (topics : List Topic) (rid : RegId) :
    Tree.treeCount s t ≤ 1 ∧
    (t ∈ topics → Tree.treeHas s t = true → (∃ b, Tree.subAt s p = some b) →
      Tree.subscribeOp s p topics rid = .error SubErr.unicastConflict) ∧
    ((∀ t' ∈ topics, t'.mode = Mode.multicast ∨ Tree.treeHas s t' = false) →
      topics ≠ [] → (∃ b, Tree.subAt s p = some b) →
      Tree.subscribeOp s p topics rid = .ok (Tree.mapRegistryAt s p
        (fun reg => topics.foldl (fun acc t' => Reg.registryAdd acc t' rid) reg))) := by
  refine ⟨Tree.reach_unicast_at_most_one hs t ht, ?_, ?_⟩
  · intro hmem hhas hex
    obtain ⟨b, hb⟩ := hex
    unfold Tree.subscribeOp
    rw [hb]
    have h0 : ¬topics.length = 0 := by
      intro hl
      rw [List.length_eq_zero] at hl
      subst hl
      exact absurd hmem (List.not_mem_nil t)
    rw [if_neg h0]
    have hany : topics.any
        (fun t' => decide (t'.mode ≠ Mode.multicast) && Tree.treeHas s t') = true :=
      List.any_eq_true.mpr ⟨t, hmem, by simp [ht, hhas]⟩
    rw [if_pos hany]
  · intro hall hne hex
    obtain ⟨b, hb⟩ := hex
    unfold Tree.subscribeOp
    rw [hb]
    have h0 : ¬topics.length = 0 := by
      intro hl
      rw [List.length_eq_zero] at hl
      exact hne hl
    rw [if_neg h0]
    have hany : ¬topics.any
        (fun t' => decide (t'.mode ≠ Mode.multicast) && Tree.treeHas s t') = true := by
      rw [List.any_eq_true]
      rintro ⟨t', hmem', hcond⟩
      rcases hall t' hmem' with h1 | h1
      · simp [h1] at hcond
      · simp [h1] at hcond
    rw [if_neg hany]

/-- Example unicast topic. -/
def uTopic : Topic := ⟨1, Mode.unicast, Direction.children⟩

/-- A reachable hierarchy: a root with one child bus that holds the single
registration for `uTopic`. -/
def uTree : Tree.HTree := .node [] [.node [(uTopic, [0])] []]

/-- Witness for C4: subscribing to the unicast topic on the root of a
hierarchy whose child already holds it fails; a separate fresh hierarchy
accepts its own registration for the same topic. -/
theorem claim_C4_unicast_single_registration_witness :
    uTopic.mode = Mode.unicast ∧
    Tree.treeCount uTree uTopic ≤ 1 ∧
    Tree.subscribeOp uTree [] [uTopic] 1 = .error SubErr.unicastConflict ∧
    Tree.subscribeOp (.node [] []) [] [uTopic] 5 =
      .ok (.node [(uTopic, [5])] []) := by
  have h1 : Tree.Reach (.node [] []) := Tree.Reach.root
  have h2 : Tree.Reach (Tree.createChildOp (.node [] []) []) := Tree.Reach.child h1
  have h3 : Tree.subscribeOp (Tree.createChildOp (.node [] []) []) [0] [uTopic] 0 =
      .ok uTree := rfl
  have hreach : Tree.Reach uTree := Tree.Reach.subscribe h2 (by simp) h3
  have h := claim_C4_unicast_single_registration uTopic rfl uTree hreach [] [uTopic] 1
  refine ⟨rfl, h.1, ?_, ?_⟩
  · exact h.2.1 (by simp) rfl ⟨uTree, rfl⟩
  · have h2' := claim_C4_unicast_single_registration uTopic rfl (.node [] [])
      Tree.Reach.root [] [uTopic] 5
    have hres := h2'.2.2 (by
        intro t' ht'
        rw [List.mem_singleton] at ht'
        subst ht'
        right
        rfl)
      (by simp) ⟨.node [] [], rfl⟩
    exact hres

end MB

namespace MB.Sched

/-!
## Operational model of the per-bus queue / drain / dispatch machinery

Embeds the cooperative scheduling core of `messageBusImpl.ts`: each bus owns
a FIFO publish queue of pending drain tasks and a `myPublishing` flag;
`enqueueMessage` (lines 296-306) pushes a thunk and schedules one drain
microtask when none is in flight; `drainPublishQueue` (lines 413-422) runs
every queued thunk unless the bus is disposed, then clears the flag; a thunk
(`resolve(this.publishMessage(message))`) synchronously evaluates the
composed veto predicate and its promise chain schedules the dispatch
continuation; `dispatchMessage` (lines 328-411) notifies listeners,
enqueues the broadcast copies onto child buses (or the parent), and invokes
the sorted active registrations.

The JS microtask queue is modelled by `Config.tasks` (FIFO).  Promise
continuation chains are collapsed to single queue entries; since the JS
microtask queue is FIFO and every `publishMessage` chain has the same number
of hops, this preserves the relative order of all drains, dispatches,
listener notifications and handler invocations.  Handlers are synchronous:
they record the delivered payload, perform a list of nested `publish` calls,
and return a value or throw an error code.  Ghost fields (`dispLog`,
`enqLog`, `ranThunks`) record event history and mutate no behaviour.
-/

/-- What a registration's bound user handler does when invoked with a
payload: the fire-and-forget publishes it performs, and its
returned/thrown outcome. -/
structure HandlerProg where
  pubs : Data → List (BusId × Topic × Data)
  result : Data → Except Nat Data

/-- A registration as stored in a bus registry (the mutable fields mirror
`Registration` of registry.ts). -/
structure SReg where
  rid : RegId
  isActive : Bool
  isDisposed : Bool
  remaining : Int
  priority : Int
  prog : HandlerProg

/-- A queued message (the `Message` record of messageBusImpl.ts lines
27-33, plus the promise identity `pid` of its `enqueueMessage` call). -/
structure Msg where
  pid : Nat
  topic : Topic
  data : Data
  broadcast : Bool
  listeners : Bool
  awaitable : Bool
deriving DecidableEq, Repr

/-- One bus's state. -/
structure Bus where
  parent : Option BusId
  children : List BusId
  registry : List (Topic × List SReg)
  listeners : List Nat
  vetoes : List (Topic → Data → Bool)
  queue : List Msg
  publishing : Bool
  disposed : Bool

/-- A pending microtask. -/
inductive MTask where
  | drain (b : BusId)
  | dispatch (b : BusId) (m : Msg) (vetoed : Bool)

/-- The global state: bus map, microtask queue, observable logs, ghost
history. -/
structure Config where
  buses : BusId → Bus
  tasks : List MTask
  deliveryLog : List (BusId × RegId × Nat × Data)
  listenerLog : List (BusId × Nat × Nat × Data × Nat)
  errLog : List (BusId × Nat × Nat)
  dispLog : BusId → List Msg
  enqLog : BusId → List Msg
  ranThunks : List Nat
  nextPid : Nat

/-- Pointwise function update (object mutation of one bus). -/
def upd {α : Type} (f : BusId → α) (k : BusId) (v : α) : BusId → α :=
  fun x => if x = k then v else f x

@[simp] theorem upd_same {α : Type} (f : BusId → α) (k : BusId) (v : α) :
    upd f k v k = v := by simp [upd]

theorem upd_ne {α : Type} (f : BusId → α) (k x : BusId) (v : α) (h : x ≠ k) :
    upd f k v x = f x := by simp [upd, h]

/-- `SubscriptionRegistry.getAll` (registry.ts lines 43-46). -/
def getAllS (registry : List (Topic × List SReg)) (t : Topic)
    (activeOnly : Bool) : List SReg :=
  let rs := match registry.find? (fun p => p.1 = t) with
            | some p => p.2
            | none => []
  if activeOnly then rs.filter (fun r => r.isActive) else rs

/-- `enqueueMessage` (lines 296-306): `checkDisposed()` — the throw on a
disposed bus is modelled as a rejected enqueue (`none`, no state change) —
then push the drain task and, when no drain is in flight, set
`myPublishing` and schedule one drain microtask.  Returns the promise
identity of the enqueued message. -/
def enqueueMessage (c : Config) (b : BusId) (topic : Topic) (d : Data)
    (broadcast listeners awaitable : Bool) : Config × Option Nat :=
  let bus := c.buses b
  if bus.disposed then (c, none)
  else
    let m : Msg := ⟨c.nextPid, topic, d, broadcast, listeners, awaitable⟩
    let c1 : Config := { c with
      buses := upd c.buses b { bus with queue := bus.queue ++ [m] },
      enqLog := fun x => if x = b then c.enqLog b ++ [m] else c.enqLog x,
      nextPid := c.nextPid + 1 }
    if bus.publishing then (c1, some m.pid)
    else
      ({ c1 with
         buses := upd c1.buses b { (c1.buses b) with publishing := true },
         tasks := c1.tasks ++ [MTask.drain b] }, some m.pid)

/-- `publish` (lines 101-108): fire-and-forget, `broadcast: true,
listeners: true`. -/
def publish (c : Config) (b : BusId) (topic : Topic) (d : Data) : Config :=
  (enqueueMessage c b topic d true true false).1

/-- One queued thunk: `resolve(this.publishMessage(message))`.
`publishMessage` (lines 308-326) synchronously evaluates the composed
`isVetoed` (pure predicates here) and its `.then` schedules the dispatch
continuation on the microtask queue. -/
def runThunk (c : Config) (b : BusId) (m : Msg) : Config :=
  { c with
    tasks := c.tasks ++
      [MTask.dispatch b m (Out.isVetoedComposed (c.buses b).vetoes m.topic m.data)],
    ranThunks := c.ranThunks ++ [m.pid] }

/-- `drainPublishQueue` (lines 413-422): if the bus is disposed the queued
thunks never run; otherwise the `while` loop shifts and runs every thunk
(thunks perform no synchronous enqueue in this model, so the loop processes
exactly the snapshot), and in either case `myPublishing` is cleared. -/
def drainPublishQueue (c : Config) (b : BusId) : Config :=
  let bus := c.buses b
  if bus.disposed then
    { c with buses := upd c.buses b { bus with publishing := false } }
  else
    let c1 : Config := { c with buses := upd c.buses b { bus with queue := [] } }
    let c2 := bus.queue.foldl (fun acc m => runThunk acc b m) c1
    { c2 with buses := upd c2.buses b { (c2.buses b) with publishing := false } }

/-- All registrations (over every topic list) with the given identity. -/
def ridEntries (registry : List (Topic × List SReg)) (rid : RegId) :
    List (Topic × SReg) :=
  registry.flatMap (fun p => (p.2.filter (fun r => r.rid = rid)).map (fun r => (p.1, r)))

/-- The live registration object with the given identity. -/
def findReg (registry : List (Topic × List SReg)) (rid : RegId) : Option SReg :=
  (registry.flatMap (fun p => p.2)).find? (fun r => r.rid = rid)

/-- Mutating the shared `remaining` field of a registration object. -/
def updateRemaining (registry : List (Topic × List SReg)) (rid : RegId)
    (v : Int) : List (Topic × List SReg) :=
  registry.map (fun p => (p.1, p.2.map (fun r =>
    if r.rid = rid then { r with remaining := v } else r)))

/-- `Registration.dispose`: the registration removes itself from every
topic list of its registry. -/
def removeReg (registry : List (Topic × List SReg)) (rid : RegId) :
    List (Topic × List SReg) :=
  registry.map (fun p => (p.1, p.2.filter (fun r => ¬r.rid = rid)))

/-- One registration invocation inside `dispatchMessage` (lines 362-385):
the composed interceptor handler with no interceptors calls the
registration's `handler` directly; `HandlerRegistration.handler` disposes
and drops when the budget is exhausted, else decrements a positive budget
and runs the user handler, which records the delivery, performs its nested
`publish` calls, and returns or throws — a throw on the fire-and-forget
path is forwarded to `handleError` (the error log). -/
def invokeReg (c : Config) (b : BusId) (m : Msg) (rid : RegId) : Config :=
  match findReg (c.buses b).registry rid with
  | none => c
  | some r =>
    if r.remaining = 0 then
      let bus2 : Bus :=
        { (c.buses b) with registry := removeReg (c.buses b).registry rid }
      { c with buses := upd c.buses b bus2 }
    else
      let c2 : Config := if r.remaining > 0 then
          let bus2 : Bus := { (c.buses b) with
            registry := updateRemaining (c.buses b).registry rid (r.remaining - 1) }
          { c with buses := upd c.buses b bus2 }
        else c
      let c3 : Config :=
        { c2 with deliveryLog := c2.deliveryLog ++ [(b, rid, m.pid, m.data)] }
      let c4 := (r.prog.pubs m.data).foldl
        (fun acc q => publish acc q.1 q.2.1 q.2.2) c3
      match r.prog.result m.data with
      | .ok _ => c4
      | .error e =>
        if m.awaitable then c4
        else { c4 with errLog := c4.errLog ++ [(b, m.pid, e)] }

/-- The listener notification loop (lines 335-345). -/
def notifyListeners (c : Config) (b : BusId) (m : Msg) (count : Nat) : Config :=
  if m.listeners then
    (c.buses b).listeners.foldl
      (fun acc l =>
        { acc with listenerLog := acc.listenerLog ++ [(b, l, m.pid, m.data, count)] }) c
  else c

/-- The broadcast stage (lines 347-360): direction `children` enqueues onto
every current child (broadcast flag kept, listener flag unset); direction
`parent` enqueues onto the immediate parent only, with no broadcast flag,
so the message never propagates further. -/
def broadcastMsg (c : Config) (b : BusId) (m : Msg) : Config :=
  if m.broadcast then
    if m.topic.broadcastDirection = Direction.children then
      (c.buses b).children.foldl
        (fun acc ch => (enqueueMessage acc ch m.topic m.data true false m.awaitable).1) c
    else
      match (c.buses b).parent with
      | some pa => (enqueueMessage c pa m.topic m.data false false m.awaitable).1
      | none => c
  else c

def invokeAll (c : Config) (b : BusId) (m : Msg) (rids : List RegId) : Config :=
  rids.foldl (fun acc rid => invokeReg acc b m rid) c

/-- The dispatch continuation: on a veto `publishMessage` returns without
dispatching (lines 319-325); otherwise `dispatchMessage` computes the
active priority-sorted registrations, notifies listeners, broadcasts, and
invokes the handlers.  The ghost `dispLog` records the message either
way. -/
def execDispatch (c : Config) (b : BusId) (m : Msg) (vetoed : Bool) : Config :=
  let c0 : Config :=
    { c with dispLog := fun x => if x = b then c.dispLog b ++ [m] else c.dispLog x }
  if vetoed then c0
  else
    let regs := MB.PSort.sortByPriority (fun r => r.priority)
      (getAllS (c0.buses b).registry m.topic true)
    let c1 := notifyListeners c0 b m regs.length
    let c2 := broadcastMsg c1 b m
    invokeAll c2 b m (regs.map (fun r => r.rid))

/-- Run one microtask (the JS event loop's microtask checkpoint). -/
def step (c : Config) : Config :=
  match c.tasks with
  | [] => c
  | MTask.drain b :: ts => drainPublishQueue { c with tasks := ts } b
  | MTask.dispatch b m v :: ts => execDispatch { c with tasks := ts } b m v

/-- Run `n` microtasks. -/
def run (c : Config) : Nat → Config
  | 0 => c
  | n + 1 => run (step c) n

/-- `dispose` (lines 268-294): mark disposed, detach from the parent's
child set, clear listeners and interceptors, dispose every registration and
clear the registry, then dispose the children recursively and clear the
child set.  The publish queue is **not** cleared.  `fuel` bounds the
recursion depth (the child graph of a reachable hierarchy is a finite
tree). -/
def disposeBus : Nat → Config → BusId → Config
  | 0, c, _ => c
  | fuel + 1, c, b =>
    let bus := c.buses b
    if bus.disposed then c
    else
      let bus2 : Bus :=
        { bus with disposed := true, listeners := [], vetoes := [], registry := [] }
      let c1 : Config := { c with buses := upd c.buses b bus2 }
      let c2 : Config := match bus.parent with
        | some pa =>
          let pb : Bus := { (c1.buses pa) with
            children := (c1.buses pa).children.filter (fun x => ¬x = b) }
          { c1 with buses := upd c1.buses pa pb }
        | none => c1
      let c3 := bus.children.foldl (fun acc ch => disposeBus fuel acc ch) c2
      { c3 with buses := upd c3.buses b { (c3.buses b) with children := [] } }

end MB.Sched

namespace MB.Sched

/-- The dispatch continuations pending for one bus, in microtask order. -/
def dispatchMsgsFor (b : BusId) (ts : List MTask) : List Msg :=
  ts.filterMap (fun t => match t with
    | MTask.dispatch b' m _ => if b' = b then some m else none
    | _ => none)

theorem dispatchMsgsFor_append (b : BusId) (ts ts' : List MTask) :
    dispatchMsgsFor b (ts ++ ts') =
      dispatchMsgsFor b ts ++ dispatchMsgsFor b ts' := by
  simp [dispatchMsgsFor]

@[simp] theorem dispatchMsgsFor_drain (b x : BusId) :
    dispatchMsgsFor b [MTask.drain x] = [] := rfl

@[simp] theorem dispatchMsgsFor_nil (b : BusId) :
    dispatchMsgsFor b [] = [] := rfl

/-- The per-bus message pipeline: already dispatched, then pending dispatch
continuations, then the bus queue. -/
def pipeline (c : Config) (b : BusId) : List Msg :=
  c.dispLog b ++ dispatchMsgsFor b c.tasks ++ (c.buses b).queue

/-- The FIFO invariant: for every bus, the pipeline is exactly the sequence
of messages enqueued on that bus, in order. -/
def PipelineInv (c : Config) : Prop := ∀ b, pipeline c b = c.enqLog b

/-- The state changes a nested `publish` / listener notification / handler
invocation may make, as far as the pipeline is concerned: `dispLog` and the
pending dispatch continuations untouched, and every bus's queue and enqueue
history extended by the same suffix. -/
def Quiet (c c' : Config) : Prop :=
  c'.dispLog = c.dispLog ∧
  (∀ x, dispatchMsgsFor x c'.tasks = dispatchMsgsFor x c.tasks) ∧
  (∀ x, ∃ δ, (c'.buses x).queue = (c.buses x).queue ++ δ ∧
    c'.enqLog x = c.enqLog x ++ δ)

theorem Quiet.qrefl (c : Config) : Quiet c c :=
  ⟨rfl, fun _ => rfl, fun x => ⟨[], by simp⟩⟩

theorem Quiet.qtrans {a b c : Config} (h1 : Quiet a b) (h2 : Quiet b c) :
    Quiet a c := by
  obtain ⟨d1, t1, q1⟩ := h1
  obtain ⟨d2, t2, q2⟩ := h2
  refine ⟨d2.trans d1, fun x => (t2 x).trans (t1 x), fun x => ?_⟩
  obtain ⟨δ1, hq1, he1⟩ := q1 x
  obtain ⟨δ2, hq2, he2⟩ := q2 x
  exact ⟨δ1 ++ δ2, by rw [hq2, hq1, List.append_assoc],
    by rw [he2, he1, List.append_assoc]⟩

theorem Quiet.pipelineInv {c c' : Config} (hq : Quiet c c')
    (h : PipelineInv c) : PipelineInv c' := by
  intro b
  obtain ⟨d1, t1, q1⟩ := hq
  obtain ⟨δ, hq1, he1⟩ := q1 b
  unfold pipeline
  rw [d1, t1, hq1, he1, ← List.append_assoc]
  have hb := h b
  unfold pipeline at hb
  rw [hb]

theorem Quiet.qfoldl {α : Type} (f : Config → α → Config)
    (hf : ∀ c a, Quiet c (f c a)) :
    ∀ (l : List α) (c : Config), Quiet c (l.foldl f c) := by
  intro l
  induction l with
  | nil => intro c; exact Quiet.qrefl c
  | cons a l ih =>
    intro c
    exact Quiet.qtrans (hf c a) (ih (f c a))

/-- `enqueueMessage` is `Quiet`: the pipeline-relevant effect is appending
one message (on a live bus) to the target's queue and enqueue history. -/
theorem enqueueMessage_quiet (c : Config) (b : BusId) (t : Topic) (d : Data)
    (br ls aw : Bool) : Quiet c (enqueueMessage c b t d br ls aw).1 := by
  unfold enqueueMessage
  by_cases hd : (c.buses b).disposed = true
  · rw [if_pos hd]
    exact Quiet.qrefl c
  · rw [if_neg hd]
    by_cases hp : (c.buses b).publishing = true
    · rw [if_pos hp]
      refine ⟨rfl, fun x => rfl, fun x => ?_⟩
      by_cases hx : x = b
      · subst hx
        exact ⟨[⟨c.nextPid, t, d, br, ls, aw⟩], by simp [upd], by simp⟩
      · exact ⟨[], by simp [upd_ne _ _ _ _ hx, hx]⟩
    · rw [if_neg hp]
      refine ⟨rfl, fun x => by simp [dispatchMsgsFor_append], fun x => ?_⟩
      by_cases hx : x = b
      · subst hx
        exact ⟨[⟨c.nextPid, t, d, br, ls, aw⟩], by simp [upd], by simp⟩
      · exact ⟨[], by simp [upd_ne _ _ _ _ hx, hx]⟩

theorem publish_quiet (c : Config) (b : BusId) (t : Topic) (d : Data) :
    Quiet c (publish c b t d) :=
  enqueueMessage_quiet c b t d true true false

end MB.Sched

namespace MB.Sched

theorem notifyListeners_quiet (c : Config) (b : BusId) (m : Msg) (k : Nat) :
    Quiet c (notifyListeners c b m k) := by
  unfold notifyListeners
  by_cases hl : m.listeners = true
  · rw [if_pos hl]
    refine Quiet.qfoldl _ (fun c' a => ?_) _ c
    exact ⟨rfl, fun _ => rfl, fun x => ⟨[], by simp⟩⟩
  · rw [if_neg hl]
    exact Quiet.qrefl c

theorem quiet_of_same {c c' : Config} (h1 : c'.dispLog = c.dispLog)
    (h2 : c'.tasks = c.tasks)
    (h3 : ∀ x, (c'.buses x).queue = (c.buses x).queue)
    (h4 : c'.enqLog = c.enqLog) : Quiet c c' :=
  ⟨h1, fun x => by rw [h2], fun x => ⟨[], by simp [h3 x], by simp [h4]⟩⟩

theorem invokeReg_quiet (c : Config) (b : BusId) (m : Msg) (rid : RegId) :
    Quiet c (invokeReg c b m rid) := by
  unfold invokeReg
  cases hf : findReg (c.buses b).registry rid with
  | none => exact Quiet.qrefl c
  | some r =>
    simp only []
    by_cases h0 : r.remaining = 0
    · rw [if_pos h0]
      refine quiet_of_same rfl rfl (fun x => ?_) rfl
      by_cases hx : x = b
      · subst hx; simp [upd]
      · simp [upd_ne _ _ _ _ hx]
    · rw [if_neg h0]
      have hinner : ∀ cx : Config, Quiet c cx →
          Quiet c (match r.prog.result m.data with
            | .ok _ => cx
            | .error e =>
              if m.awaitable = true then cx
              else { cx with errLog := cx.errLog ++ [(b, m.pid, e)] }) := by
        intro cx hcx
        cases r.prog.result m.data with
        | ok v => exact hcx
        | error e =>
          simp only []
          by_cases ha : m.awaitable = true
          · rw [if_pos ha]
            exact hcx
          · rw [if_neg ha]
            exact Quiet.qtrans hcx (quiet_of_same rfl rfl (fun _ => rfl) rfl)
      apply hinner
      refine Quiet.qtrans ?_
        (Quiet.qfoldl _ (fun (c' : Config) (a : BusId × Topic × Data) =>
          publish_quiet c' a.1 a.2.1 a.2.2) _ _)
      refine quiet_of_same ?_ ?_ (fun x => ?_) ?_
      · by_cases hp : r.remaining > 0 <;> simp [hp]
      · by_cases hp : r.remaining > 0 <;> simp [hp]
      · by_cases hp : r.remaining > 0 <;> by_cases hx : x = b <;>
          simp [hp, hx, upd]
      · by_cases hp : r.remaining > 0 <;> simp [hp]

theorem broadcastMsg_quiet (c : Config) (b : BusId) (m : Msg) :
    Quiet c (broadcastMsg c b m) := by
  unfold broadcastMsg
  by_cases hb : m.broadcast = true
  · rw [if_pos hb]
    by_cases hd : m.topic.broadcastDirection = Direction.children
    · rw [if_pos hd]
      exact Quiet.qfoldl _
        (fun c' ch => enqueueMessage_quiet c' ch m.topic m.data true false m.awaitable) _ c
    · rw [if_neg hd]
      cases (c.buses b).parent with
      | none => exact Quiet.qrefl c
      | some pa => exact enqueueMessage_quiet c pa m.topic m.data false false m.awaitable
  · rw [if_neg hb]
    exact Quiet.qrefl c

theorem invokeAll_quiet (c : Config) (b : BusId) (m : Msg) (rids : List RegId) :
    Quiet c (invokeAll c b m rids) :=
  Quiet.qfoldl _ (fun c' rid => invokeReg_quiet c' b m rid) rids c

end MB.Sched

namespace MB.Sched

theorem upd_upd {α : Type} (f : BusId → α) (k : BusId) (a b : α) :
    upd (upd f k a) k b = upd f k b := by
  funext x
  by_cases hx : x = k <;> simp [upd, hx]

/-- Running the drain loop's thunks appends one dispatch continuation per
queued message (in queue order) and records the thunk executions. -/
theorem foldl_runThunk (b : BusId) : ∀ (q : List Msg) (c : Config),
    q.foldl (fun acc m => runThunk acc b m) c =
      { c with
        tasks := c.tasks ++ q.map (fun m => MTask.dispatch b m
          (Out.isVetoedComposed (c.buses b).vetoes m.topic m.data)),
        ranThunks := c.ranThunks ++ q.map (fun m => m.pid) } := by
  intro q
  induction q with
  | nil => intro c; simp
  | cons m q ih =>
    intro c
    simp only [List.foldl_cons]
    rw [ih (runThunk c b m)]
    simp [runThunk, List.append_assoc]

/-- `drainPublishQueue` on a live bus: the queue empties into dispatch
continuations at the tail of the microtask queue, and the publishing flag
clears. -/
theorem drain_spec (c : Config) (b : BusId)
    (h : (c.buses b).disposed = false) :
    drainPublishQueue c b = { c with
      buses := upd c.buses b { c.buses b with queue := [], publishing := false },
      tasks := c.tasks ++ (c.buses b).queue.map (fun m => MTask.dispatch b m
        (Out.isVetoedComposed (c.buses b).vetoes m.topic m.data)),
      ranThunks := c.ranThunks ++ (c.buses b).queue.map (fun m => m.pid) } := by
  simp only [drainPublishQueue, h, Bool.false_eq_true, if_false]
  rw [foldl_runThunk]
  simp only [upd_same, upd_upd]

/-- `drainPublishQueue` on a disposed bus: the queued thunks never run,
only the publishing flag clears. -/
theorem drain_spec_disposed (c : Config) (b : BusId)
    (h : (c.buses b).disposed = true) :
    drainPublishQueue c b = { c with
      buses := upd c.buses b { c.buses b with publishing := false } } := by
  simp only [drainPublishQueue, h, if_true]

theorem dispatchMsgsFor_map_self (b : BusId) (q : List Msg)
    (v : Msg → Bool) :
    dispatchMsgsFor b (q.map (fun m => MTask.dispatch b m (v m))) = q := by
  induction q with
  | nil => rfl
  | cons m q ih =>
    unfold dispatchMsgsFor at ih ⊢
    rw [List.map_cons, List.filterMap_cons]
    simp only [if_pos]
    rw [ih]

theorem dispatchMsgsFor_map_ne (b x : BusId) (q : List Msg)
    (v : Msg → Bool) (hx : x ≠ b) :
    dispatchMsgsFor x (q.map (fun m => MTask.dispatch b m (v m))) = [] := by
  induction q with
  | nil => rfl
  | cons m q ih =>
    unfold dispatchMsgsFor at ih ⊢
    rw [List.map_cons, List.filterMap_cons]
    simp only [if_neg (fun hh : b = x => hx hh.symm)]
    exact ih

/-- The dispatch stages after the ghost `dispLog` append preserve the
pipeline invariant. -/
theorem pipelineInv_dispatch_stages (c0 : Config) (b : BusId) (m : Msg)
    (k : Nat) (rids : List RegId) (h : PipelineInv c0) :
    PipelineInv (invokeAll (broadcastMsg (notifyListeners c0 b m k) b m) b m rids) :=
  Quiet.pipelineInv
    (Quiet.qtrans (notifyListeners_quiet c0 b m k)
      (Quiet.qtrans (broadcastMsg_quiet (notifyListeners c0 b m k) b m)
        (invokeAll_quiet (broadcastMsg (notifyListeners c0 b m k) b m) b m rids)))
    h

/-- One microtask preserves the FIFO pipeline invariant. -/
theorem pipelineInv_step (c : Config) (h : PipelineInv c) :
    PipelineInv (step c) := by
  cases htasks : c.tasks with
  | nil =>
    unfold step
    rw [htasks]
    exact h
  | cons t ts =>
    cases t with
    | drain b =>
      unfold step
      rw [htasks]
      simp only []
      have h' : PipelineInv { c with tasks := ts } := by
        intro x
        have hx := h x
        unfold pipeline at hx ⊢
        rw [htasks] at hx
        exact hx
      by_cases hd : (({ c with tasks := ts } : Config).buses b).disposed = true
      · rw [drain_spec_disposed _ b hd]
        intro x
        have hx := h' x
        unfold pipeline at hx ⊢
        by_cases hxb : x = b
        · subst hxb
          simpa [upd] using hx
        · simpa [upd_ne _ _ _ _ hxb] using hx
      · rw [drain_spec _ b (by simpa using hd)]
        intro x
        have hx := h' x
        unfold pipeline at hx ⊢
        rw [dispatchMsgsFor_append]
        by_cases hxb : x = b
        · subst hxb
          rw [dispatchMsgsFor_map_self]
          simp only [upd_same, List.append_nil]
          rw [← List.append_assoc]
          exact hx
        · rw [dispatchMsgsFor_map_ne b x _ _ hxb]
          simp only [upd_ne _ _ _ _ hxb, List.append_nil]
          exact hx
    | dispatch b m v =>
      unfold step
      rw [htasks]
      simp only []
      have h0 : PipelineInv
          { c with
            tasks := ts,
            dispLog := fun x => if x = b then c.dispLog b ++ [m] else c.dispLog x } := by
        intro x
        have hx := h x
        unfold pipeline at hx ⊢
        rw [htasks] at hx
        unfold dispatchMsgsFor at hx
        rw [List.filterMap_cons] at hx
        simp only [] at hx ⊢
        by_cases hxb : x = b
        · subst hxb
          rw [if_pos rfl] at hx ⊢
          unfold dispatchMsgsFor
          have hsplit : (c.dispLog x ++ [m]) ++
              List.filterMap (fun t => match t with
                | MTask.dispatch b' m _ => if b' = x then some m else none
                | _ => none) ts =
              c.dispLog x ++ (m :: List.filterMap (fun t => match t with
                | MTask.dispatch b' m _ => if b' = x then some m else none
                | _ => none) ts) := by
            rw [List.append_assoc]
            rfl
          rw [hsplit]
          exact hx
        · rw [if_neg (fun hh => hxb hh.symm)] at hx
          rw [if_neg hxb]
          unfold dispatchMsgsFor
          exact hx
      unfold execDispatch
      simp only []
      by_cases hv : v = true
      · rw [if_pos hv]
        exact h0
      · rw [if_neg hv]
        exact pipelineInv_dispatch_stages _ b m _ _ h0

end MB.Sched

namespace MB.Sched

/-- The deliveries recorded for one registration of one bus, in order. -/
def deliveredTo (log : List (BusId × RegId × Nat × Data)) (b : BusId)
    (rid : RegId) : List (BusId × RegId × Nat × Data) :=
  log.filter (fun e => e.1 = b ∧ e.2.1 = rid)

/-- The deliveries a subscriber should receive for the topic-`T` messages of
a dispatch history. -/
def expectedDeliveries (ms : List Msg) (b : BusId) (rid : RegId) (T : Topic) :
    List (BusId × RegId × Nat × Data) :=
  ms.filterMap (fun m => if m.topic = T then some (b, rid, m.pid, m.data) else none)

theorem deliveredTo_append (log log' : List (BusId × RegId × Nat × Data))
    (b : BusId) (rid : RegId) :
    deliveredTo (log ++ log') b rid =
      deliveredTo log b rid ++ deliveredTo log' b rid := by
  simp [deliveredTo]

theorem expectedDeliveries_append (ms ms' : List Msg) (b : BusId)
    (rid : RegId) (T : Topic) :
    expectedDeliveries (ms ++ ms') b rid T =
      expectedDeliveries ms b rid T ++ expectedDeliveries ms' b rid T := by
  simp [expectedDeliveries]

theorem find?_eq_head?_filter {α : Type} (l : List α) (p : α → Bool) :
    l.find? p = (l.filter p).head? := by
  induction l with
  | nil => rfl
  | cons a l ih =>
    cases hp : p a
    · rw [List.find?_cons_of_neg _ (by simp [hp]), List.filter_cons_of_neg (by simp [hp])]
      exact ih
    · rw [List.find?_cons_of_pos _ hp, List.filter_cons_of_pos hp]
      rfl

theorem ridEntries_map_snd (registry : List (Topic × List SReg)) (rid : RegId) :
    (ridEntries registry rid).map Prod.snd =
      (registry.flatMap (fun p => p.2)).filter (fun r => r.rid = rid) := by
  induction registry with
  | nil => rfl
  | cons p reg ih =>
    simp only [ridEntries, List.flatMap_cons, List.map_append, List.map_map,
      List.filter_append]
    rw [← ih]
    congr 1
    rw [show (Prod.snd ∘ fun r : SReg => (p.1, r)) = id from rfl, List.map_id]

theorem findReg_eq (registry : List (Topic × List SReg)) (rid : RegId) :
    findReg registry rid = ((ridEntries registry rid).map Prod.snd).head? := by
  rw [findReg, ridEntries_map_snd, find?_eq_head?_filter]

theorem filter_rid_removeOther (l : List SReg) (rid rid' : RegId)
    (h : rid' ≠ rid) :
    (l.filter (fun r => ¬r.rid = rid')).filter (fun r => r.rid = rid) =
      l.filter (fun r => r.rid = rid) := by
  rw [List.filter_filter]
  apply List.filter_congr
  intro r _
  by_cases hr : r.rid = rid
  · have hr' : ¬(r.rid = rid') := by
      rw [hr]; exact fun hh => h hh.symm
    have hne : ¬rid = rid' := fun hh => h hh.symm
    simp [hr, hr', hne]
  · simp [hr]

theorem filter_rid_updateOther (l : List SReg) (rid rid' : RegId) (v : Int)
    (h : rid' ≠ rid) :
    (l.map (fun r => if r.rid = rid' then { r with remaining := v } else r)).filter
      (fun r => r.rid = rid) = l.filter (fun r => r.rid = rid) := by
  rw [List.filter_map]
  have hcomp : ((fun r : SReg => decide (r.rid = rid)) ∘
      (fun r => if r.rid = rid' then { r with remaining := v } else r)) =
      fun r : SReg => decide (r.rid = rid) := by
    funext r
    by_cases hr' : r.rid = rid'
    · simp [Function.comp, hr']
    · simp [Function.comp, hr']
  rw [hcomp]
  have hid : ∀ r ∈ l.filter (fun r => r.rid = rid),
      (if r.rid = rid' then { r with remaining := v } else r) = r := by
    intro r hm
    have := of_decide_eq_true (List.mem_filter.mp hm).2
    rw [if_neg (by rw [this]; exact fun hh => h hh.symm)]
  rw [List.map_congr_left hid]
  simp

theorem ridEntries_removeReg (registry : List (Topic × List SReg))
    (rid rid' : RegId) (h : rid' ≠ rid) :
    ridEntries (removeReg registry rid') rid = ridEntries registry rid := by
  induction registry with
  | nil => rfl
  | cons p reg ih =>
    simp only [ridEntries, removeReg, List.map_cons, List.flatMap_cons]
    simp only [ridEntries, removeReg] at ih
    rw [ih, filter_rid_removeOther _ _ _ h]

theorem ridEntries_updateRemaining (registry : List (Topic × List SReg))
    (rid rid' : RegId) (v : Int) (h : rid' ≠ rid) :
    ridEntries (updateRemaining registry rid' v) rid = ridEntries registry rid := by
  induction registry with
  | nil => rfl
  | cons p reg ih =>
    simp only [ridEntries, updateRemaining, List.map_cons, List.flatMap_cons]
    simp only [ridEntries, updateRemaining] at ih
    rw [ih, filter_rid_updateOther _ _ _ _ h]

theorem keys_removeReg (registry : List (Topic × List SReg)) (rid' : RegId) :
    (removeReg registry rid').map Prod.fst = registry.map Prod.fst := by
  simp [removeReg, List.map_map]

theorem keys_updateRemaining (registry : List (Topic × List SReg))
    (rid' : RegId) (v : Int) :
    (updateRemaining registry rid' v).map Prod.fst = registry.map Prod.fst := by
  simp [updateRemaining, List.map_map]

end MB.Sched

namespace MB.Sched

theorem filter_act_rid_comm (l : List SReg) (rid : RegId) :
    (l.filter (fun r => r.isActive)).filter (fun r => r.rid = rid) =
      (l.filter (fun r => r.rid = rid)).filter (fun r => r.isActive) := by
  rw [List.filter_filter, List.filter_filter]
  apply List.filter_congr
  intro r _
  exact Bool.and_comm _ _

theorem ridEntries_mem (reg : List (Topic × List SReg)) (rid : RegId)
    (p : Topic × List SReg) (hp : p ∈ reg) (s : SReg)
    (hs : s ∈ p.2.filter (fun r => r.rid = rid)) :
    (p.1, s) ∈ ridEntries reg rid := by
  unfold ridEntries
  rw [List.mem_flatMap]
  exact ⟨p, hp, List.mem_map.mpr ⟨s, hs, rfl⟩⟩

theorem mem_keys_of_ridEntries (reg : List (Topic × List SReg)) (rid : RegId)
    (T : Topic) (r : SReg) (h : (T, r) ∈ ridEntries reg rid) :
    T ∈ reg.map Prod.fst := by
  unfold ridEntries at h
  rw [List.mem_flatMap] at h
  obtain ⟨p, hp, hm⟩ := h
  rw [List.mem_map] at hm
  obtain ⟨s, _, hs⟩ := hm
  exact List.mem_map.mpr ⟨p, hp, congrArg Prod.fst hs⟩

theorem getAllS_cons_ne (p : Topic × List SReg) (reg : List (Topic × List SReg))
    (T : Topic) (act : Bool) (h : ¬p.1 = T) :
    getAllS (p :: reg) T act = getAllS reg T act := by
  unfold getAllS
  rw [List.find?_cons_of_neg _ (by simp [h])]

/-- When `rid` occurs exactly once in the whole registry, under topic `T`,
as the active registration `r`, the active-only lookup for `T` contains it
exactly once. -/
theorem getAllS_filter_rid (registry : List (Topic × List SReg)) (rid : RegId)
    (T : Topic) (r : SReg) (hk : (registry.map Prod.fst).Nodup)
    (he : ridEntries registry rid = [(T, r)]) (ha : r.isActive = true) :
    (getAllS registry T true).filter (fun s => s.rid = rid) = [r] := by
  induction registry with
  | nil => simp [ridEntries] at he
  | cons p reg ih =>
    rw [ridEntries] at he
    rw [List.flatMap_cons] at he
    cases hpf : p.2.filter (fun s => s.rid = rid) with
    | nil =>
      rw [hpf] at he
      simp only [List.map_nil, List.nil_append] at he
      have hTreg : T ∈ reg.map Prod.fst :=
        mem_keys_of_ridEntries reg rid T r (by rw [ridEntries, he]; exact List.mem_singleton.mpr rfl)
      have hk' := hk
      rw [List.map_cons, List.nodup_cons] at hk'
      have hp1 : ¬p.1 = T := by
        intro hh
        apply hk'.1
        rw [hh]
        exact hTreg
      rw [getAllS_cons_ne p reg T true hp1]
      exact ih hk'.2 he
    | cons s ss =>
      rw [hpf] at he
      simp only [List.map_cons, List.cons_append, List.cons.injEq] at he
      obtain ⟨hhead, htail⟩ := he
      have hp1 : p.1 = T := congrArg Prod.fst hhead
      have hsr : s = r := congrArg Prod.snd hhead
      have hss : ss = [] := by
        have := congrArg List.length htail
        simp at this
        exact this.1
      unfold getAllS
      rw [List.find?_cons_of_pos _ (by simp [hp1])]
      simp only [if_true]
      rw [filter_act_rid_comm, hpf, hss, hsr]
      simp [ha]

/-- For every other topic, `rid` never shows up in the active lookup. -/
theorem getAllS_filter_rid_ne (registry : List (Topic × List SReg))
    (rid : RegId) (T T' : Topic) (r : SReg)
    (he : ridEntries registry rid = [(T, r)]) (hne : ¬T' = T) :
    (getAllS registry T' true).filter (fun s => s.rid = rid) = [] := by
  unfold getAllS
  cases hf : registry.find? (fun p => p.1 = T') with
  | none => simp
  | some p =>
    simp only [if_true]
    have hp1 : p.1 = T' := by
      have hq := List.find?_some hf
      simpa using hq
    have hpm : p ∈ registry := List.mem_of_find?_eq_some hf
    rw [filter_act_rid_comm]
    cases hfl : p.2.filter (fun s => s.rid = rid) with
    | nil => simp
    | cons s ss =>
      exfalso
      have hmem : (p.1, s) ∈ ridEntries registry rid :=
        ridEntries_mem registry rid p hpm s (by rw [hfl]; exact List.mem_cons_self _ _)
      rw [he] at hmem
      have := List.mem_singleton.mp hmem
      exact hne (hp1 ▸ congrArg Prod.fst this)

theorem filter_eq_singleton_split {α : Type} {l : List α} {p : α → Bool}
    {a : α} (h : l.filter p = [a]) :
    ∃ l1 l2, l = l1 ++ a :: l2 ∧ l1.filter p = [] ∧ l2.filter p = [] := by
  induction l with
  | nil => simp at h
  | cons x l ih =>
    cases hp : p x
    · rw [List.filter_cons_of_neg (by simp [hp])] at h
      obtain ⟨l1, l2, h1, h2, h3⟩ := ih h
      exact ⟨x :: l1, l2, by rw [h1]; rfl,
        by rw [List.filter_cons_of_neg (by simp [hp]), h2], h3⟩
    · rw [List.filter_cons_of_pos hp] at h
      have h2 : x = a ∧ l.filter p = [] := by
        simpa [List.cons.injEq] using h
      exact ⟨[], l, by rw [h2.1]; rfl, rfl, h2.2⟩

theorem filter_map_rid (regs : List SReg) (rid : RegId) :
    (regs.map (fun r => r.rid)).filter (fun x => x = rid) =
      (regs.filter (fun s => s.rid = rid)).map (fun r => r.rid) := by
  rw [List.filter_map]
  rfl

theorem sortByPriority_filter_rid (regs : List SReg) (rid : RegId) (r : SReg)
    (h : regs.filter (fun s => s.rid = rid) = [r]) :
    (MB.PSort.sortByPriority (fun s => s.priority) regs).filter
      (fun s => s.rid = rid) = [r] := by
  have hperm := (MB.PSort.sortByPriority_perm (fun s => s.priority) regs).filter
    (fun s => decide (s.rid = rid))
  rw [h] at hperm
  exact List.perm_singleton.mp hperm

end MB.Sched

namespace MB.Sched

/-- What scheduler activity other than a topic-matching dispatch on bus `b`
may do, as far as the fixed subscriber `(b, rid)` is concerned: bus `b`'s
interceptors, the subscriber's registry occurrences (and the registry's
topic keys), its delivery record and bus `b`'s dispatch history are
untouched, and no new dispatch continuation appears for bus `b`. -/
structure Steady (b : BusId) (rid : RegId) (c c' : Config) : Prop where
  vets : (c'.buses b).vetoes = (c.buses b).vetoes
  tsub : ∀ m v, MTask.dispatch b m v ∈ c'.tasks → MTask.dispatch b m v ∈ c.tasks
  rents : ridEntries (c'.buses b).registry rid = ridEntries (c.buses b).registry rid
  keys : (c'.buses b).registry.map Prod.fst = (c.buses b).registry.map Prod.fst
  dlog : deliveredTo c'.deliveryLog b rid = deliveredTo c.deliveryLog b rid
  dspl : c'.dispLog b = c.dispLog b

theorem Steady.srefl (b : BusId) (rid : RegId) (c : Config) : Steady b rid c c :=
  ⟨rfl, fun _ _ h => h, rfl, rfl, rfl, rfl⟩

theorem Steady.strans {b : BusId} {rid : RegId} {a c d : Config}
    (h1 : Steady b rid a c) (h2 : Steady b rid c d) : Steady b rid a d :=
  ⟨h2.vets.trans h1.vets, fun m v h => h1.tsub m v (h2.tsub m v h),
   h2.rents.trans h1.rents, h2.keys.trans h1.keys,
   h2.dlog.trans h1.dlog, h2.dspl.trans h1.dspl⟩

theorem Steady.sfoldl {α : Type} (b : BusId) (rid : RegId)
    (f : Config → α → Config) :
    ∀ (l : List α), (∀ c a, a ∈ l → Steady b rid c (f c a)) →
      ∀ c, Steady b rid c (l.foldl f c) := by
  intro l
  induction l with
  | nil => intro _ c; exact Steady.srefl b rid c
  | cons a l ih =>
    intro hf c
    exact Steady.strans (hf c a (List.mem_cons_self a l))
      (ih (fun c' a' ha' => hf c' a' (List.mem_cons_of_mem a ha')) (f c a))

theorem steady_enqueueMessage (b : BusId) (rid : RegId) (c : Config)
    (x : BusId) (t : Topic) (d : Data) (br ls aw : Bool) :
    Steady b rid c (enqueueMessage c x t d br ls aw).1 := by
  unfold enqueueMessage
  by_cases hd : (c.buses x).disposed = true
  · rw [if_pos hd]
    exact Steady.srefl b rid c
  · rw [if_neg hd]
    by_cases hp : (c.buses x).publishing = true
    · rw [if_pos hp]
      refine ⟨?_, fun _ _ h => h, ?_, ?_, rfl, rfl⟩
      · by_cases hbx : b = x <;> simp [upd, hbx]
      · by_cases hbx : b = x <;> simp [upd, hbx]
      · by_cases hbx : b = x <;> simp [upd, hbx]
    · rw [if_neg hp]
      refine ⟨?_, ?_, ?_, ?_, rfl, rfl⟩
      · by_cases hbx : b = x <;> simp [upd, hbx]
      · intro m v h
        simp only [List.mem_append] at h
        cases h with
        | inl h => exact h
        | inr h => simp at h
      · by_cases hbx : b = x <;> simp [upd, hbx]
      · by_cases hbx : b = x <;> simp [upd, hbx]

theorem steady_publish (b : BusId) (rid : RegId) (c : Config) (x : BusId)
    (t : Topic) (d : Data) : Steady b rid c (publish c x t d) :=
  steady_enqueueMessage b rid c x t d true true false

theorem steady_notifyListeners (b : BusId) (rid : RegId) (c : Config)
    (x : BusId) (m : Msg) (k : Nat) :
    Steady b rid c (notifyListeners c x m k) := by
  unfold notifyListeners
  by_cases hl : m.listeners = true
  · rw [if_pos hl]
    exact Steady.sfoldl b rid
      (fun (acc : Config) (l : Nat) =>
        { acc with listenerLog := acc.listenerLog ++ [(x, l, m.pid, m.data, k)] })
      _ (fun c' a _ => ⟨rfl, fun _ _ h => h, rfl, rfl, rfl, rfl⟩) c
  · rw [if_neg hl]
    exact Steady.srefl b rid c

theorem steady_broadcastMsg (b : BusId) (rid : RegId) (c : Config)
    (x : BusId) (m : Msg) : Steady b rid c (broadcastMsg c x m) := by
  unfold broadcastMsg
  by_cases hb : m.broadcast = true
  · rw [if_pos hb]
    by_cases hdir : m.topic.broadcastDirection = Direction.children
    · rw [if_pos hdir]
      exact Steady.sfoldl b rid _ _
        (fun c' ch _ =>
          steady_enqueueMessage b rid c' ch m.topic m.data true false m.awaitable) c
    · rw [if_neg hdir]
      cases (c.buses x).parent with
      | none => exact Steady.srefl b rid c
      | some pa => exact steady_enqueueMessage b rid c pa m.topic m.data false false m.awaitable
  · rw [if_neg hb]
    exact Steady.srefl b rid c

end MB.Sched

namespace MB.Sched

theorem steady_invokeReg (b : BusId) (rid : RegId) (c : Config) (x : BusId)
    (m : Msg) (rid' : RegId) (hcase : x ≠ b ∨ rid' ≠ rid) :
    Steady b rid c (invokeReg c x m rid') := by
  unfold invokeReg
  cases hf : findReg (c.buses x).registry rid' with
  | none => exact Steady.srefl b rid c
  | some r =>
    simp only []
    have hne : b = x → rid' ≠ rid := by
      intro hbx
      cases hcase with
      | inl h => exact absurd hbx.symm h
      | inr h => exact h
    by_cases h0 : r.remaining = 0
    · rw [if_pos h0]
      refine ⟨?_, fun _ _ h => h, ?_, ?_, rfl, rfl⟩
      · by_cases hbx : b = x <;> simp [upd, hbx]
      · by_cases hbx : b = x
        · subst hbx
          simp only []
          simp only [upd_same]
          exact ridEntries_removeReg _ rid rid' (hne rfl)
        · simp only []
          rw [upd_ne _ _ _ _ hbx]
      · by_cases hbx : b = x
        · subst hbx
          simp only []
          simp only [upd_same]
          exact keys_removeReg _ rid'
        · simp only []
          rw [upd_ne _ _ _ _ hbx]
    · rw [if_neg h0]
      have hstep : ∀ cx : Config, Steady b rid c cx →
          Steady b rid c (match r.prog.result m.data with
            | .ok _ => cx
            | .error e =>
              if m.awaitable = true then cx
              else { cx with errLog := cx.errLog ++ [(x, m.pid, e)] }) := by
        intro cx hcx
        cases r.prog.result m.data with
        | ok v => exact hcx
        | error e =>
          simp only []
          by_cases ha : m.awaitable = true
          · rw [if_pos ha]
            exact hcx
          · rw [if_neg ha]
            exact Steady.strans hcx ⟨rfl, fun _ _ h => h, rfl, rfl, rfl, rfl⟩
      have hdel : ∀ cx : Config, Steady b rid c cx →
          Steady b rid c
            { cx with deliveryLog := cx.deliveryLog ++ [(x, rid', m.pid, m.data)] } := by
        intro cx hcx
        refine Steady.strans hcx ⟨rfl, fun _ _ h => h, rfl, rfl, ?_, rfl⟩
        rw [deliveredTo_append]
        have hone : deliveredTo [(x, rid', m.pid, m.data)] b rid = [] := by
          unfold deliveredTo
          cases hcase with
          | inl h => simp [h]
          | inr h => simp [h]
        rw [hone, List.append_nil]
      apply hstep
      refine Steady.strans ?_
        (Steady.sfoldl b rid
          (fun (acc : Config) (q : BusId × Topic × Data) => publish acc q.1 q.2.1 q.2.2)
          _ (fun c' a _ => steady_publish b rid c' a.1 a.2.1 a.2.2) _)
      apply hdel
      by_cases hp : r.remaining > 0
      · rw [if_pos hp]
        refine ⟨?_, fun _ _ h => h, ?_, ?_, rfl, rfl⟩
        · by_cases hbx : b = x <;> simp [upd, hbx]
        · by_cases hbx : b = x
          · subst hbx
            simp only []
            simp only [upd_same]
            exact ridEntries_updateRemaining _ rid rid' _ (hne rfl)
          · simp only []
            rw [upd_ne _ _ _ _ hbx]
        · by_cases hbx : b = x
          · subst hbx
            simp only []
            simp only [upd_same]
            exact keys_updateRemaining _ rid' _
          · simp only []
            rw [upd_ne _ _ _ _ hbx]
      · rw [if_neg hp]
        exact Steady.srefl b rid c

/-- Like `Steady`, but one delivery for the fixed subscriber is recorded. -/
structure Delivers (b : BusId) (rid : RegId) (m : Msg) (c c' : Config) : Prop where
  vets : (c'.buses b).vetoes = (c.buses b).vetoes
  tsub : ∀ m' v, MTask.dispatch b m' v ∈ c'.tasks → MTask.dispatch b m' v ∈ c.tasks
  rents : ridEntries (c'.buses b).registry rid = ridEntries (c.buses b).registry rid
  keys : (c'.buses b).registry.map Prod.fst = (c.buses b).registry.map Prod.fst
  dlog : deliveredTo c'.deliveryLog b rid =
    deliveredTo c.deliveryLog b rid ++ [(b, rid, m.pid, m.data)]
  dspl : c'.dispLog b = c.dispLog b

theorem Delivers.steady_left {b : BusId} {rid : RegId} {m : Msg}
    {a c d : Config} (h1 : Steady b rid a c) (h2 : Delivers b rid m c d) :
    Delivers b rid m a d :=
  ⟨h2.vets.trans h1.vets, fun m' v h => h1.tsub m' v (h2.tsub m' v h),
   h2.rents.trans h1.rents, h2.keys.trans h1.keys,
   h2.dlog.trans (by rw [h1.dlog]), h2.dspl.trans h1.dspl⟩

theorem Delivers.steady_right {b : BusId} {rid : RegId} {m : Msg}
    {a c d : Config} (h1 : Delivers b rid m a c) (h2 : Steady b rid c d) :
    Delivers b rid m a d :=
  ⟨h2.vets.trans h1.vets, fun m' v h => h1.tsub m' v (h2.tsub m' v h),
   h2.rents.trans h1.rents, h2.keys.trans h1.keys,
   h2.dlog.trans h1.dlog, h2.dspl.trans h1.dspl⟩

/-- Invoking the fixed subscriber itself: with a single, unlimited registry
occurrence, the handler runs and records exactly one delivery. -/
theorem invokeReg_at_fixed (c : Config) (b : BusId) (m : Msg) (rid : RegId)
    (T : Topic) (r : SReg)
    (hrents : ridEntries (c.buses b).registry rid = [(T, r)])
    (hrem : r.remaining < 0) :
    Delivers b rid m c (invokeReg c b m rid) := by
  unfold invokeReg
  have hf : findReg (c.buses b).registry rid = some r := by
    rw [findReg_eq, hrents]
    rfl
  rw [hf]
  simp only []
  rw [if_neg (by omega : ¬r.remaining = 0), if_neg (by omega : ¬r.remaining > 0)]
  have hstep : ∀ cx : Config, Delivers b rid m c cx →
      Delivers b rid m c (match r.prog.result m.data with
        | .ok _ => cx
        | .error e =>
          if m.awaitable = true then cx
          else { cx with errLog := cx.errLog ++ [(b, m.pid, e)] }) := by
    intro cx hcx
    cases r.prog.result m.data with
    | ok v => exact hcx
    | error e =>
      simp only []
      by_cases ha : m.awaitable = true
      · rw [if_pos ha]
        exact hcx
      · rw [if_neg ha]
        exact hcx.steady_right ⟨rfl, fun _ _ h => h, rfl, rfl, rfl, rfl⟩
  apply hstep
  refine Delivers.steady_right ?_
    (Steady.sfoldl b rid
      (fun (acc : Config) (q : BusId × Topic × Data) => publish acc q.1 q.2.1 q.2.2)
      _ (fun c' a _ => steady_publish b rid c' a.1 a.2.1 a.2.2) _)
  refine ⟨rfl, fun _ _ h => h, rfl, rfl, ?_, rfl⟩
  rw [deliveredTo_append]
  have hone : deliveredTo [(b, rid, m.pid, m.data)] b rid = [(b, rid, m.pid, m.data)] := by
    simp [deliveredTo]
  rw [hone]

/-- Invoking the sorted registration list, in which the fixed subscriber
appears exactly once, records exactly one delivery for it. -/
theorem invokeAll_delivers (c : Config) (b : BusId) (m : Msg) (rid : RegId)
    (T : Topic) (r : SReg) (l1 l2 : List RegId)
    (h1 : ∀ x ∈ l1, x ≠ rid) (h2 : ∀ x ∈ l2, x ≠ rid)
    (hrents : ridEntries (c.buses b).registry rid = [(T, r)])
    (hrem : r.remaining < 0) :
    Delivers b rid m c (invokeAll c b m (l1 ++ rid :: l2)) := by
  unfold invokeAll
  rw [List.foldl_append, List.foldl_cons]
  have s1 : Steady b rid c
      (l1.foldl (fun acc rid' => invokeReg acc b m rid') c) :=
    Steady.sfoldl b rid _ l1
      (fun c' a ha => steady_invokeReg b rid c' b m a (Or.inr (h1 a ha))) c
  have hrentsA : ridEntries
      ((l1.foldl (fun acc rid' => invokeReg acc b m rid') c).buses b).registry rid
      = [(T, r)] := s1.rents.trans hrents
  have d : Delivers b rid m (l1.foldl (fun acc rid' => invokeReg acc b m rid') c)
      (invokeReg (l1.foldl (fun acc rid' => invokeReg acc b m rid') c) b m rid) :=
    invokeReg_at_fixed _ b m rid T r hrentsA hrem
  have s2 : Steady b rid
      (invokeReg (l1.foldl (fun acc rid' => invokeReg acc b m rid') c) b m rid)
      (l2.foldl (fun acc rid' => invokeReg acc b m rid')
        (invokeReg (l1.foldl (fun acc rid' => invokeReg acc b m rid') c) b m rid)) :=
    Steady.sfoldl b rid _ l2
      (fun c' a ha => steady_invokeReg b rid c' b m a (Or.inr (h2 a ha))) _
  exact (Delivers.steady_left s1 d).steady_right s2

end MB.Sched

namespace MB.Sched

theorem isVetoedComposed_nil (t : Topic) (d : Data) :
    Out.isVetoedComposed [] t d = false := rfl

theorem steady_invokeAll (b : BusId) (rid : RegId) (c : Config) (x : BusId)
    (m : Msg) (rids : List RegId)
    (hcase : ∀ rid' ∈ rids, x ≠ b ∨ rid' ≠ rid) :
    Steady b rid c (invokeAll c x m rids) := by
  unfold invokeAll
  exact Steady.sfoldl b rid _ rids
    (fun c' a ha => steady_invokeReg b rid c' x m a (hcase a ha)) c

theorem steady_dispatch_stages (b : BusId) (rid : RegId) (c0 : Config)
    (x : BusId) (m : Msg) (k : Nat) (rids : List RegId)
    (hcase : ∀ rid' ∈ rids, x ≠ b ∨ rid' ≠ rid) :
    Steady b rid c0 (invokeAll (broadcastMsg (notifyListeners c0 x m k) x m) x m rids) :=
  Steady.strans (Steady.strans (steady_notifyListeners b rid c0 x m k)
    (steady_broadcastMsg b rid _ x m))
    (steady_invokeAll b rid _ x m rids hcase)

theorem steady_execDispatch_other (b : BusId) (rid : RegId) (c : Config)
    (x : BusId) (m : Msg) (v : Bool) (hx : x ≠ b) :
    Steady b rid c (execDispatch c x m v) := by
  unfold execDispatch
  have hbx : ¬b = x := fun hh => hx hh.symm
  have s0 : Steady b rid c
      { c with dispLog := fun y => if y = x then c.dispLog x ++ [m] else c.dispLog y } :=
    ⟨rfl, fun _ _ h => h, rfl, rfl, rfl, by simp only []; rw [if_neg hbx]⟩
  simp only []
  by_cases hv : v = true
  · rw [if_pos hv]
    exact s0
  · rw [if_neg hv]
    exact Steady.strans s0 (steady_dispatch_stages b rid _ x m _ _ (fun rid' _ => Or.inl hx))

/-- The standing state of one fixed, unlimited subscriber: `rid` occurs
exactly once in bus `b`'s registry, under topic `T`, active, with a
negative (unlimited) remaining budget; bus `b` has no interceptors and no
vetoed dispatch continuation pending; and the recorded deliveries for
`(b, rid)` are exactly the topic-`T` messages of `b`'s dispatch history,
in order. -/
structure FixedSub (c : Config) (b : BusId) (rid : RegId) (T : Topic)
    (r : SReg) : Prop where
  vets : (c.buses b).vetoes = []
  tdisp : ∀ m v, MTask.dispatch b m v ∈ c.tasks → v = false
  rents : ridEntries (c.buses b).registry rid = [(T, r)]
  keysND : ((c.buses b).registry.map Prod.fst).Nodup
  hrid : r.rid = rid
  hact : r.isActive = true
  hrem : r.remaining < 0
  dinv : deliveredTo c.deliveryLog b rid =
    expectedDeliveries (c.dispLog b) b rid T

theorem FixedSub.steady {c c' : Config} {b : BusId} {rid : RegId} {T : Topic}
    {r : SReg} (h : FixedSub c b rid T r) (hs : Steady b rid c c') :
    FixedSub c' b rid T r :=
  ⟨hs.vets.trans h.vets, fun m v hm => h.tdisp m v (hs.tsub m v hm),
   hs.rents.trans h.rents, by rw [hs.keys]; exact h.keysND,
   h.hrid, h.hact, h.hrem,
   by rw [hs.dlog, hs.dspl]; exact h.dinv⟩

end MB.Sched

namespace MB.Sched

/-- The dispatch stages on the fixed subscriber's own bus: a topic-`T`
message is delivered to it exactly once, any other message not at all, and
its standing state is preserved either way. -/
theorem fixedSub_stages_self (c : Config) (b : BusId) (rid : RegId)
    (T : Topic) (r : SReg) (m : Msg) (k : Nat) (h : FixedSub c b rid T r) :
    FixedSub
      (invokeAll
        (broadcastMsg
          (notifyListeners
            { c with dispLog := fun x => if x = b then c.dispLog b ++ [m] else c.dispLog x }
            b m k)
          b m)
        b m
        ((MB.PSort.sortByPriority (fun s => s.priority)
          (getAllS (c.buses b).registry m.topic true)).map (fun s => s.rid)))
      b rid T r := by
  have s02 : Steady b rid
      { c with dispLog := fun x => if x = b then c.dispLog b ++ [m] else c.dispLog x }
      (broadcastMsg (notifyListeners
        { c with dispLog := fun x => if x = b then c.dispLog b ++ [m] else c.dispLog x }
        b m k) b m) :=
    Steady.strans (steady_notifyListeners b rid _ b m k) (steady_broadcastMsg b rid _ b m)
  by_cases hT : m.topic = T
  · have hfil : (getAllS (c.buses b).registry m.topic true).filter
        (fun s => s.rid = rid) = [r] := by
      rw [hT]
      exact getAllS_filter_rid _ rid T r h.keysND h.rents h.hact
    have hsf : ((MB.PSort.sortByPriority (fun s => s.priority)
        (getAllS (c.buses b).registry m.topic true))).filter
        (fun s => s.rid = rid) = [r] :=
      sortByPriority_filter_rid _ rid r hfil
    have hridsf : (((MB.PSort.sortByPriority (fun s => s.priority)
        (getAllS (c.buses b).registry m.topic true))).map (fun s => s.rid)).filter
        (fun y => y = rid) = [rid] := by
      rw [filter_map_rid, hsf]
      simp [h.hrid]
    obtain ⟨l1, l2, hsplit, hf1, hf2⟩ := filter_eq_singleton_split hridsf
    have h1 : ∀ y ∈ l1, y ≠ rid := by
      intro y hy heq
      have := List.filter_eq_nil_iff.mp hf1 y hy
      simp [heq] at this
    have h2 : ∀ y ∈ l2, y ≠ rid := by
      intro y hy heq
      have := List.filter_eq_nil_iff.mp hf2 y hy
      simp [heq] at this
    have hrents2 : ridEntries ((broadcastMsg (notifyListeners
        { c with dispLog := fun x => if x = b then c.dispLog b ++ [m] else c.dispLog x }
        b m k) b m).buses b).registry rid = [(T, r)] :=
      s02.rents.trans h.rents
    have hd := invokeAll_delivers _ b m rid T r l1 l2 h1 h2 hrents2 h.hrem
    rw [← hsplit] at hd
    refine ⟨hd.vets.trans (s02.vets.trans h.vets),
      (fun m' v hm => h.tdisp m' v (s02.tsub m' v (hd.tsub m' v hm))),
      hd.rents.trans (s02.rents.trans h.rents),
      ?_, h.hrid, h.hact, h.hrem, ?_⟩
    · rw [hd.keys, s02.keys]
      exact h.keysND
    · rw [hd.dlog, s02.dlog, hd.dspl, s02.dspl]
      have hdl : ({ c with
          dispLog := fun x => if x = b then c.dispLog b ++ [m] else c.dispLog x } :
          Config).dispLog b = c.dispLog b ++ [m] := by
        simp
      rw [hdl, expectedDeliveries_append]
      have hone : expectedDeliveries [m] b rid T = [(b, rid, m.pid, m.data)] := by
        unfold expectedDeliveries
        simp [hT]
      rw [hone, h.dinv]
  · have hfil : (getAllS (c.buses b).registry m.topic true).filter
        (fun s => s.rid = rid) = [] :=
      getAllS_filter_rid_ne _ rid T m.topic r h.rents hT
    have hsf : ((MB.PSort.sortByPriority (fun s => s.priority)
        (getAllS (c.buses b).registry m.topic true))).filter
        (fun s => s.rid = rid) = [] := by
      have hperm := (MB.PSort.sortByPriority_perm (fun s : SReg => s.priority)
        (getAllS (c.buses b).registry m.topic true)).filter
        (fun s => decide (s.rid = rid))
      rw [hfil] at hperm
      exact List.Perm.eq_nil hperm
    have hall : ∀ rid' ∈ ((MB.PSort.sortByPriority (fun s => s.priority)
        (getAllS (c.buses b).registry m.topic true)).map (fun s => s.rid)),
        b ≠ b ∨ rid' ≠ rid := by
      intro y hy
      refine Or.inr ?_
      intro heq
      rw [List.mem_map] at hy
      obtain ⟨s, hs, hsy⟩ := hy
      have hmem : s ∈ ((MB.PSort.sortByPriority (fun s => s.priority)
          (getAllS (c.buses b).registry m.topic true))).filter
          (fun s => s.rid = rid) :=
        List.mem_filter.mpr ⟨hs, by simp [hsy, heq]⟩
      rw [hsf] at hmem
      simp at hmem
    have hst := Steady.strans s02 (steady_invokeAll b rid _ b m _ hall)
    refine ⟨hst.vets.trans h.vets, fun m' v hm => h.tdisp m' v (hst.tsub m' v hm),
      hst.rents.trans h.rents, ?_, h.hrid, h.hact, h.hrem, ?_⟩
    · rw [hst.keys]
      exact h.keysND
    · rw [hst.dlog, hst.dspl]
      have hdl : ({ c with
          dispLog := fun x => if x = b then c.dispLog b ++ [m] else c.dispLog x } :
          Config).dispLog b = c.dispLog b ++ [m] := by
        simp
      rw [hdl, expectedDeliveries_append]
      have hone : expectedDeliveries [m] b rid T = [] := by
        unfold expectedDeliveries
        simp [hT]
      rw [hone, List.append_nil]
      exact h.dinv

theorem fixedSub_execDispatch_self (c : Config) (b : BusId) (rid : RegId)
    (T : Topic) (r : SReg) (m : Msg) (h : FixedSub c b rid T r) :
    FixedSub (execDispatch c b m false) b rid T r := by
  unfold execDispatch
  simp only [Bool.false_eq_true, if_false]
  exact fixedSub_stages_self c b rid T r m _ h

end MB.Sched

namespace MB.Sched

/-- One microtask preserves the fixed subscriber's standing state and its
delivery-order invariant. -/
theorem fixedSub_step (c : Config) (b : BusId) (rid : RegId) (T : Topic)
    (r : SReg) (h : FixedSub c b rid T r) : FixedSub (step c) b rid T r := by
  cases htasks : c.tasks with
  | nil =>
    unfold step
    rw [htasks]
    exact h
  | cons t ts =>
    have h' : FixedSub { c with tasks := ts } b rid T r :=
      ⟨h.vets, fun m v hm => h.tdisp m v (by rw [htasks]; exact List.mem_cons_of_mem t hm),
       h.rents, h.keysND, h.hrid, h.hact, h.hrem, h.dinv⟩
    cases t with
    | drain x =>
      unfold step
      rw [htasks]
      simp only []
      by_cases hd : (({ c with tasks := ts } : Config).buses x).disposed = true
      · rw [drain_spec_disposed _ x hd]
        refine ⟨?_, h'.tdisp, ?_, ?_, h.hrid, h.hact, h.hrem, h.dinv⟩
        · simp only []
          by_cases hbx : b = x
          · subst hbx
            simp only [upd_same]
            exact h.vets
          · rw [upd_ne _ _ _ _ hbx]
            exact h.vets
        · simp only []
          by_cases hbx : b = x
          · subst hbx
            simp only [upd_same]
            exact h.rents
          · rw [upd_ne _ _ _ _ hbx]
            exact h.rents
        · simp only []
          by_cases hbx : b = x
          · subst hbx
            simp only [upd_same]
            exact h.keysND
          · rw [upd_ne _ _ _ _ hbx]
            exact h.keysND
      · rw [drain_spec _ x (by simpa using hd)]
        refine ⟨?_, ?_, ?_, ?_, h.hrid, h.hact, h.hrem, h.dinv⟩
        · simp only []
          by_cases hbx : b = x
          · subst hbx
            simp only [upd_same]
            exact h.vets
          · rw [upd_ne _ _ _ _ hbx]
            exact h.vets
        · intro m v hm
          simp only [] at hm
          rw [List.mem_append] at hm
          cases hm with
          | inl hm => exact h'.tdisp m v hm
          | inr hm =>
            rw [List.mem_map] at hm
            obtain ⟨m', _, hmm⟩ := hm
            injection hmm with h1 h2 h3
            rw [← h3, h1, h.vets]
            exact isVetoedComposed_nil _ _
        · simp only []
          by_cases hbx : b = x
          · subst hbx
            simp only [upd_same]
            exact h.rents
          · rw [upd_ne _ _ _ _ hbx]
            exact h.rents
        · simp only []
          by_cases hbx : b = x
          · subst hbx
            simp only [upd_same]
            exact h.keysND
          · rw [upd_ne _ _ _ _ hbx]
            exact h.keysND
    | dispatch x m v =>
      unfold step
      rw [htasks]
      simp only []
      have hvmem : MTask.dispatch x m v ∈ c.tasks := by
        rw [htasks]
        exact List.mem_cons_self _ _
      by_cases hxb : x = b
      · subst hxb
        have hv : v = false := h.tdisp m v hvmem
        subst hv
        exact fixedSub_execDispatch_self _ x rid T r m h'
      · exact h'.steady (steady_execDispatch_other b rid _ x m v hxb)

/-- The FIFO pipeline invariant holds along every run. -/
theorem pipelineInv_run (c : Config) (n : Nat) (h : PipelineInv c) :
    PipelineInv (run c n) := by
  induction n generalizing c with
  | zero => exact h
  | succ n ih => exact ih (step c) (pipelineInv_step c h)

/-- The fixed subscriber's standing state holds along every run. -/
theorem fixedSub_run (c : Config) (b : BusId) (rid : RegId) (T : Topic)
    (r : SReg) (n : Nat) (h : FixedSub c b rid T r) :
    FixedSub (run c n) b rid T r := by
  induction n generalizing c with
  | zero => exact h
  | succ n ih => exact ih (step c) (fixedSub_step c b rid T r h)

end MB.Sched

namespace MB.Sched

/-- C1: for every bus `b` and fixed subscriber `rid` on it (registered
once for topic `T`, active, unlimited budget, no interceptors), after any
number of microtasks the deliveries recorded for the subscriber are
exactly the topic-`T` messages of the bus's dispatch history, in order,
and that dispatch history is a prefix of the bus's enqueue (publish)
history — so messages, including messages published from inside a handler
while a drain is running (which `enqueueMessage` appends to the per-bus
FIFO queue and a later `drainPublishQueue` turns into dispatch
continuations after the current snapshot), are delivered to the fixed
subscriber in exactly the order they were published on that bus. -/
theorem claim_C1_fifo_order_per_subscriber (c : Config) (b : BusId)
    (rid : RegId) (T : Topic) (r : SReg) (n : Nat)
    (hp : PipelineInv c) (hf : FixedSub c b rid T r) :
    deliveredTo (run c n).deliveryLog b rid =
      expectedDeliveries ((run c n).dispLog b) b rid T ∧
    ((run c n).dispLog b) <+: ((run c n).enqLog b) ∧
    PipelineInv (run c n) ∧ FixedSub (run c n) b rid T r := by
  have hp' := pipelineInv_run c n hp
  have hf' := fixedSub_run c b rid T r n hf
  refine ⟨hf'.dinv, ?_, hp', hf'⟩
  refine ⟨dispatchMsgsFor b (run c n).tasks ++ ((run c n).buses b).queue, ?_⟩
  rw [← List.append_assoc]
  exact hp' b

/-- The witness handler: upon the first payload it publishes a nested
message while the drain is in flight. -/
def progW : HandlerProg :=
  ⟨fun d => if d = 1 then [(0, exTopic, 3)] else [], fun d => .ok d⟩

def rW : SReg := ⟨5, true, false, -1, 1, progW⟩

def busW : Bus :=
  ⟨none, [], [(exTopic, [rW])], [], [],
   [⟨0, exTopic, 1, true, true, false⟩, ⟨1, exTopic, 2, true, true, false⟩],
   true, false⟩

def busNilW : Bus := ⟨none, [], [], [], [], [], false, false⟩

/-- Two messages already published on bus 0 (queue and enqueue history
agree), one drain microtask scheduled. -/
def cW : Config :=
  ⟨fun x => if x = 0 then busW else busNilW, [MTask.drain 0], [], [], [],
   fun _ => [],
   fun x => if x = 0 then
     [⟨0, exTopic, 1, true, true, false⟩, ⟨1, exTopic, 2, true, true, false⟩]
   else [],
   [], 2⟩

theorem claim_C1_fifo_order_per_subscriber_witness :
    (deliveredTo (run cW 5).deliveryLog 0 5 =
       expectedDeliveries ((run cW 5).dispLog 0) 0 5 exTopic ∧
     ((run cW 5).dispLog 0) <+: ((run cW 5).enqLog 0) ∧
     PipelineInv (run cW 5) ∧ FixedSub (run cW 5) 0 5 exTopic rW) ∧
    deliveredTo (run cW 5).deliveryLog 0 5 =
      [(0, 5, 0, 1), (0, 5, 1, 2), (0, 5, 2, 3)] := by
  refine ⟨claim_C1_fifo_order_per_subscriber cW 0 5 exTopic rW 5 ?_ ?_, ?_⟩
  · intro x
    by_cases hx : x = 0
    · subst hx
      rfl
    · simp [pipeline, dispatchMsgsFor, cW, busNilW, hx]
  · refine ⟨rfl, ?_, rfl, by simp [cW, busW], rfl, rfl, by decide, rfl⟩
    intro m v hm
    simp [cW] at hm
  · rfl

end MB.Sched

namespace MB.Sched

theorem enqueueMessage_bus_other (c : Config) (x : BusId) (t : Topic)
    (d : Data) (br ls aw : Bool) (y : BusId) (hy : y ≠ x) :
    ((enqueueMessage c x t d br ls aw).1).buses y = c.buses y := by
  unfold enqueueMessage
  by_cases hd : (c.buses x).disposed = true
  · rw [if_pos hd]
  · rw [if_neg hd]
    by_cases hp : (c.buses x).publishing = true
    · rw [if_pos hp]
      simp only []
      exact upd_ne _ _ _ _ hy
    · rw [if_neg hp]
      simp only []
      rw [upd_ne _ _ _ _ hy, upd_ne _ _ _ _ hy]

theorem enqueueMessage_queue_self (c : Config) (x : BusId) (t : Topic)
    (d : Data) (br ls aw : Bool) (hd : (c.buses x).disposed = false) :
    (((enqueueMessage c x t d br ls aw).1).buses x).queue =
      (c.buses x).queue ++ [⟨c.nextPid, t, d, br, ls, aw⟩] := by
  unfold enqueueMessage
  have hd' : ¬(c.buses x).disposed = true := by
    rw [hd]
    simp
  rw [if_neg hd']
  by_cases hp : (c.buses x).publishing = true
  · rw [if_pos hp]
    simp [upd]
  · rw [if_neg hp]
    simp [upd]

def progNil : HandlerProg := ⟨fun _ => [], fun d => .ok d⟩

def mkReg (i : RegId) : SReg := ⟨i, true, false, -1, 1, progNil⟩

/-- Scenario: root bus 0 with children 1 and 2; bus 1 has child 3; one
subscriber per bus on a `children`-direction topic; one message published
on bus 0. -/
def cA : Config :=
  ⟨fun x => if x = 0 then ⟨none, [1, 2], [(exTopic, [mkReg 10])], [], [],
      [⟨0, exTopic, 7, true, true, false⟩], true, false⟩
    else if x = 1 then ⟨some 0, [3], [(exTopic, [mkReg 11])], [], [], [], false, false⟩
    else if x = 2 then ⟨some 0, [], [(exTopic, [mkReg 12])], [], [], [], false, false⟩
    else if x = 3 then ⟨some 1, [], [(exTopic, [mkReg 13])], [], [], [], false, false⟩
    else busNilW,
   [MTask.drain 0], [], [], [], fun _ => [],
   fun x => if x = 0 then [⟨0, exTopic, 7, true, true, false⟩] else [], [], 1⟩

/-- A `parent`-direction topic. -/
def tUp : Topic := ⟨4, Mode.multicast, Direction.parent⟩

/-- Scenario: three-level chain 0 ← 1 ← 2 with one subscriber per bus on a
`parent`-direction topic; one message published on the grandchild bus 2. -/
def cB : Config :=
  ⟨fun x => if x = 0 then ⟨none, [1], [(tUp, [mkReg 20])], [], [], [], false, false⟩
    else if x = 1 then ⟨some 0, [2], [(tUp, [mkReg 21])], [], [], [], false, false⟩
    else if x = 2 then ⟨some 1, [], [(tUp, [mkReg 22])], [], [],
      [⟨0, tUp, 8, true, true, false⟩], true, false⟩
    else busNilW,
   [MTask.drain 2], [], [], [], fun _ => [],
   fun x => if x = 2 then [⟨0, tUp, 8, true, true, false⟩] else [], [], 1⟩

/-- C7: broadcast propagation.  (1) A broadcast message on a
`children`-direction topic is enqueued onto every current child, keeping
the broadcast flag (hence recursing to grandchildren) and clearing the
listener flag.  (2) On a `parent`-direction topic it is enqueued onto the
immediate parent only, with the broadcast flag cleared.  (3) A message
without the broadcast flag is never propagated.  (4) In the concrete
two-level-children hierarchy the subscribers are reached in the order
publisher, first child, second child, grandchild.  (5) In the concrete
three-level chain a publish on the grandchild reaches the grandchild's
and the parent's subscriber, never the root's, and the run is over after
four microtasks. -/
theorem claim_C7_broadcast_direction :
    (∀ (c : Config) (b : BusId) (m : Msg) (ch : BusId) (l1 l2 : List BusId),
      m.broadcast = true → m.topic.broadcastDirection = Direction.children →
      (c.buses b).children = l1 ++ ch :: l2 → ch ∉ l1 → ch ∉ l2 →
      (c.buses ch).disposed = false →
      ∃ p, ((broadcastMsg c b m).buses ch).queue =
        (c.buses ch).queue ++ [⟨p, m.topic, m.data, true, false, m.awaitable⟩]) ∧
    (∀ (c : Config) (b : BusId) (m : Msg) (pa : BusId),
      m.broadcast = true → ¬m.topic.broadcastDirection = Direction.children →
      (c.buses b).parent = some pa → (c.buses pa).disposed = false →
      ((broadcastMsg c b m).buses pa).queue =
        (c.buses pa).queue ++ [⟨c.nextPid, m.topic, m.data, false, false, m.awaitable⟩]) ∧
    (∀ (c : Config) (b : BusId) (m : Msg),
      m.broadcast = false → broadcastMsg c b m = c) ∧
    (run cA 8).deliveryLog = [(0, 10, 0, 7), (1, 11, 1, 7), (2, 12, 2, 7), (3, 13, 3, 7)] ∧
    ((run cB 4).deliveryLog = [(2, 22, 0, 8), (1, 21, 1, 8)] ∧ run cB 9 = run cB 4) := by
  refine ⟨?_, ?_, ?_, rfl, rfl, rfl⟩
  · intro c b m ch l1 l2 hbr hdir hch hn1 hn2 hdisp
    unfold broadcastMsg
    rw [if_pos hbr, if_pos hdir, hch]
    rw [List.foldl_append, List.foldl_cons]
    have hother : ∀ (l : List BusId), (∀ x ∈ l, x ≠ ch) → ∀ (c' : Config),
        ((l.foldl (fun acc ch' =>
          (enqueueMessage acc ch' m.topic m.data true false m.awaitable).1) c')).buses ch
          = c'.buses ch := by
      intro l
      induction l with
      | nil => intro _ c'; rfl
      | cons a l ih =>
        intro hl c'
        rw [List.foldl_cons, ih (fun x hx => hl x (List.mem_cons_of_mem a hx))]
        exact enqueueMessage_bus_other c' a m.topic m.data true false m.awaitable ch
          (fun hh => hl a (List.mem_cons_self a l) hh.symm)
    have h1 : ((l1.foldl (fun acc ch' =>
        (enqueueMessage acc ch' m.topic m.data true false m.awaitable).1) c)).buses ch
        = c.buses ch :=
      hother l1 (fun x hx heq => hn1 (heq ▸ hx)) c
    refine ⟨(l1.foldl (fun acc ch' =>
      (enqueueMessage acc ch' m.topic m.data true false m.awaitable).1) c).nextPid, ?_⟩
    rw [hother l2 (fun x hx heq => hn2 (heq ▸ hx)) _]
    rw [enqueueMessage_queue_self _ ch m.topic m.data true false m.awaitable
      (by rw [h1]; exact hdisp)]
    rw [h1]
  · intro c b m pa hbr hdir hpa hdisp
    unfold broadcastMsg
    rw [if_pos hbr, if_neg hdir, hpa]
    exact enqueueMessage_queue_self c pa m.topic m.data false false m.awaitable hdisp
  · intro c b m hbr
    unfold broadcastMsg
    rw [hbr]
    simp

theorem claim_C7_broadcast_direction_witness :
    (∃ p, ((broadcastMsg cA 0 ⟨0, exTopic, 7, true, true, false⟩).buses 1).queue =
      ((cA.buses 1).queue ++ [⟨p, exTopic, 7, true, false, false⟩])) ∧
    broadcastMsg cB 1 ⟨1, tUp, 8, false, false, false⟩ = cB := by
  refine ⟨claim_C7_broadcast_direction.1 cA 0 _ 1 [] [2] rfl rfl rfl
    (by simp) (by simp) rfl, ?_⟩
  exact claim_C7_broadcast_direction.2.2.1 cB 1 _ rfl

end MB.Sched

namespace MB.Sched

/-- A message stranded on a disposed bus: the bus is disposed with the
message still queued, the message's promise identity is in the past of the
pid counter, and nothing anywhere in the configuration — pending dispatch
continuations, other queues, executed thunks, delivery/listener/error
logs, dispatch histories — carries that identity. -/
structure Frozen (c : Config) (b : BusId) (m : Msg) : Prop where
  disp : (c.buses b).disposed = true
  mq : m ∈ (c.buses b).queue
  pidlt : m.pid < c.nextPid
  tno : ∀ x m' v, MTask.dispatch x m' v ∈ c.tasks → ¬m'.pid = m.pid
  qno : ∀ x, ¬x = b → ∀ m' ∈ (c.buses x).queue, ¬m'.pid = m.pid
  rno : ∀ p ∈ c.ranThunks, ¬p = m.pid
  dno : ∀ e ∈ c.deliveryLog, ¬e.2.2.1 = m.pid
  lno : ∀ e ∈ c.listenerLog, ¬e.2.2.1 = m.pid
  eno : ∀ e ∈ c.errLog, ¬e.2.1 = m.pid
  dlno : ∀ x, ∀ m' ∈ c.dispLog x, ¬m'.pid = m.pid

theorem Frozen.ffoldl {α : Type} (b : BusId) (m : Msg) (f : Config → α → Config) :
    ∀ (l : List α), (∀ c a, a ∈ l → Frozen c b m → Frozen (f c a) b m) →
      ∀ c, Frozen c b m → Frozen (l.foldl f c) b m := by
  intro l
  induction l with
  | nil => intro _ c h; exact h
  | cons a l ih =>
    intro hf c h
    exact ih (fun c' a' ha' => hf c' a' (List.mem_cons_of_mem a ha'))
      (f c a) (hf c a (List.mem_cons_self a l) h)

theorem frozen_enqueueMessage (c : Config) (b : BusId) (m : Msg) (x : BusId)
    (t : Topic) (d : Data) (br ls aw : Bool) (h : Frozen c b m) :
    Frozen (enqueueMessage c x t d br ls aw).1 b m := by
  have hpidne : ∀ m' : Msg, m' = ⟨c.nextPid, t, d, br, ls, aw⟩ → ¬m'.pid = m.pid := by
    intro m' hm' hh
    rw [hm'] at hh
    simp only [] at hh
    have hlt := h.pidlt
    rw [hh] at hlt
    exact absurd hlt (lt_irrefl m.pid)
  unfold enqueueMessage
  by_cases hd : (c.buses x).disposed = true
  · rw [if_pos hd]
    exact h
  · rw [if_neg hd]
    by_cases hp : (c.buses x).publishing = true
    · rw [if_pos hp]
      refine ⟨?_, ?_, Nat.lt_succ_of_lt h.pidlt, h.tno, ?_, h.rno, h.dno, h.lno, h.eno, h.dlno⟩
      · simp only []
        by_cases hbx : b = x
        · subst hbx
          simp only [upd_same]
          exact h.disp
        · rw [upd_ne _ _ _ _ hbx]
          exact h.disp
      · simp only []
        by_cases hbx : b = x
        · subst hbx
          simp only [upd_same]
          exact List.mem_append.mpr (Or.inl h.mq)
        · rw [upd_ne _ _ _ _ hbx]
          exact h.mq
      · intro y hy m' hm'
        simp only [] at hm'
        by_cases hyx : y = x
        · subst hyx
          rw [upd_same] at hm'
          simp only [] at hm'
          rw [List.mem_append] at hm'
          cases hm' with
          | inl hm' => exact h.qno y hy m' hm'
          | inr hm' => exact hpidne m' (List.mem_singleton.mp hm')
        · rw [upd_ne _ _ _ _ hyx] at hm'
          exact h.qno y hy m' hm'
    · rw [if_neg hp]
      refine ⟨?_, ?_, Nat.lt_succ_of_lt h.pidlt, ?_, ?_, h.rno, h.dno, h.lno, h.eno, h.dlno⟩
      · simp only []
        by_cases hbx : b = x
        · subst hbx
          simp only [upd_same]
          exact h.disp
        · rw [upd_ne _ _ _ _ hbx, upd_ne _ _ _ _ hbx]
          exact h.disp
      · simp only []
        by_cases hbx : b = x
        · subst hbx
          simp only [upd_same]
          exact List.mem_append.mpr (Or.inl h.mq)
        · rw [upd_ne _ _ _ _ hbx, upd_ne _ _ _ _ hbx]
          exact h.mq
      · intro y m' v hm'
        simp only [] at hm'
        rw [List.mem_append] at hm'
        cases hm' with
        | inl hm' => exact h.tno y m' v hm'
        | inr hm' => simp at hm'
      · intro y hy m' hm'
        simp only [] at hm'
        by_cases hyx : y = x
        · subst hyx
          rw [upd_same] at hm'
          simp only [] at hm'
          rw [upd_same] at hm'
          simp only [] at hm'
          rw [List.mem_append] at hm'
          cases hm' with
          | inl hm' => exact h.qno y hy m' hm'
          | inr hm' => exact hpidne m' (List.mem_singleton.mp hm')
        · rw [upd_ne _ _ _ _ hyx, upd_ne _ _ _ _ hyx] at hm'
          exact h.qno y hy m' hm'

theorem frozen_publish (c : Config) (b : BusId) (m : Msg) (x : BusId)
    (t : Topic) (d : Data) (h : Frozen c b m) : Frozen (publish c x t d) b m :=
  frozen_enqueueMessage c b m x t d true true false h

theorem frozen_notifyListeners (c : Config) (b : BusId) (m : Msg) (x : BusId)
    (m' : Msg) (k : Nat) (hpid : ¬m'.pid = m.pid) (h : Frozen c b m) :
    Frozen (notifyListeners c x m' k) b m := by
  unfold notifyListeners
  by_cases hl : m'.listeners = true
  · rw [if_pos hl]
    refine Frozen.ffoldl b m _ _ (fun c' a _ hc => ?_) c h
    refine ⟨hc.disp, hc.mq, hc.pidlt, hc.tno, hc.qno, hc.rno, hc.dno, ?_, hc.eno, hc.dlno⟩
    intro e he
    simp only [] at he
    rw [List.mem_append] at he
    cases he with
    | inl he => exact hc.lno e he
    | inr he =>
      rw [List.mem_singleton.mp he]
      exact hpid
  · rw [if_neg hl]
    exact h

theorem frozen_broadcastMsg (c : Config) (b : BusId) (m : Msg) (x : BusId)
    (m' : Msg) (h : Frozen c b m) : Frozen (broadcastMsg c x m') b m := by
  unfold broadcastMsg
  by_cases hb : m'.broadcast = true
  · rw [if_pos hb]
    by_cases hdir : m'.topic.broadcastDirection = Direction.children
    · rw [if_pos hdir]
      exact Frozen.ffoldl b m _ _
        (fun c' ch _ hc =>
          frozen_enqueueMessage c' b m ch m'.topic m'.data true false m'.awaitable hc) c h
    · rw [if_neg hdir]
      cases (c.buses x).parent with
      | none => exact h
      | some pa => exact frozen_enqueueMessage c b m pa m'.topic m'.data false false m'.awaitable h
  · rw [if_neg hb]
    exact h

end MB.Sched

namespace MB.Sched

theorem frozen_invokeReg (c : Config) (b : BusId) (m : Msg) (x : BusId)
    (m' : Msg) (rid : RegId) (hpid : ¬m'.pid = m.pid) (h : Frozen c b m) :
    Frozen (invokeReg c x m' rid) b m := by
  unfold invokeReg
  cases hf : findReg (c.buses x).registry rid with
  | none => exact h
  | some r =>
    simp only []
    by_cases h0 : r.remaining = 0
    · rw [if_pos h0]
      refine ⟨?_, ?_, h.pidlt, h.tno, ?_, h.rno, h.dno, h.lno, h.eno, h.dlno⟩
      · simp only []
        by_cases hbx : b = x
        · subst hbx
          simp only [upd_same]
          exact h.disp
        · rw [upd_ne _ _ _ _ hbx]
          exact h.disp
      · simp only []
        by_cases hbx : b = x
        · subst hbx
          simp only [upd_same]
          exact h.mq
        · rw [upd_ne _ _ _ _ hbx]
          exact h.mq
      · intro y hy m'' hm''
        simp only [] at hm''
        by_cases hyx : y = x
        · subst hyx
          rw [upd_same] at hm''
          exact h.qno y hy m'' hm''
        · rw [upd_ne _ _ _ _ hyx] at hm''
          exact h.qno y hy m'' hm''
    · rw [if_neg h0]
      have hstep : ∀ cx : Config, Frozen cx b m →
          Frozen (match r.prog.result m'.data with
            | .ok _ => cx
            | .error e =>
              if m'.awaitable = true then cx
              else { cx with errLog := cx.errLog ++ [(x, m'.pid, e)] }) b m := by
        intro cx hcx
        cases r.prog.result m'.data with
        | ok v => exact hcx
        | error e =>
          simp only []
          by_cases ha : m'.awaitable = true
          · rw [if_pos ha]
            exact hcx
          · rw [if_neg ha]
            refine ⟨hcx.disp, hcx.mq, hcx.pidlt, hcx.tno, hcx.qno, hcx.rno,
              hcx.dno, hcx.lno, ?_, hcx.dlno⟩
            intro e' he'
            simp only [] at he'
            rw [List.mem_append] at he'
            cases he' with
            | inl he' => exact hcx.eno e' he'
            | inr he' =>
              rw [List.mem_singleton.mp he']
              exact hpid
      apply hstep
      refine Frozen.ffoldl b m
        (fun (acc : Config) (q : BusId × Topic × Data) => publish acc q.1 q.2.1 q.2.2)
        _ (fun c' a _ hc => frozen_publish c' b m a.1 a.2.1 a.2.2 hc) _ ?_
      have hdel : ∀ cx : Config, Frozen cx b m →
          Frozen { cx with deliveryLog := cx.deliveryLog ++ [(x, rid, m'.pid, m'.data)] } b m := by
        intro cx hcx
        refine ⟨hcx.disp, hcx.mq, hcx.pidlt, hcx.tno, hcx.qno, hcx.rno, ?_,
          hcx.lno, hcx.eno, hcx.dlno⟩
        intro e he
        simp only [] at he
        rw [List.mem_append] at he
        cases he with
        | inl he => exact hcx.dno e he
        | inr he =>
          rw [List.mem_singleton.mp he]
          exact hpid
      apply hdel
      by_cases hpr : r.remaining > 0
      · rw [if_pos hpr]
        refine ⟨?_, ?_, h.pidlt, h.tno, ?_, h.rno, h.dno, h.lno, h.eno, h.dlno⟩
        · simp only []
          by_cases hbx : b = x
          · subst hbx
            simp only [upd_same]
            exact h.disp
          · rw [upd_ne _ _ _ _ hbx]
            exact h.disp
        · simp only []
          by_cases hbx : b = x
          · subst hbx
            simp only [upd_same]
            exact h.mq
          · rw [upd_ne _ _ _ _ hbx]
            exact h.mq
        · intro y hy m'' hm''
          simp only [] at hm''
          by_cases hyx : y = x
          · subst hyx
            rw [upd_same] at hm''
            exact h.qno y hy m'' hm''
          · rw [upd_ne _ _ _ _ hyx] at hm''
            exact h.qno y hy m'' hm''
      · rw [if_neg hpr]
        exact h

theorem frozen_invokeAll (c : Config) (b : BusId) (m : Msg) (x : BusId)
    (m' : Msg) (rids : List RegId) (hpid : ¬m'.pid = m.pid)
    (h : Frozen c b m) : Frozen (invokeAll c x m' rids) b m := by
  unfold invokeAll
  exact Frozen.ffoldl b m _ rids
    (fun c' a _ hc => frozen_invokeReg c' b m x m' a hpid hc) c h

theorem frozen_execDispatch (c : Config) (b : BusId) (m : Msg) (x : BusId)
    (m' : Msg) (v : Bool) (hpid : ¬m'.pid = m.pid) (h : Frozen c b m) :
    Frozen (execDispatch c x m' v) b m := by
  unfold execDispatch
  have h0 : Frozen
      { c with dispLog := fun y => if y = x then c.dispLog x ++ [m'] else c.dispLog y } b m := by
    refine ⟨h.disp, h.mq, h.pidlt, h.tno, h.qno, h.rno, h.dno, h.lno, h.eno, ?_⟩
    intro y m'' hm''
    simp only [] at hm''
    by_cases hyx : y = x
    · rw [if_pos hyx, List.mem_append] at hm''
      cases hm'' with
      | inl hm'' => exact h.dlno x m'' hm''
      | inr hm'' =>
        rw [List.mem_singleton.mp hm'']
        exact hpid
    · rw [if_neg hyx] at hm''
      exact h.dlno y m'' hm''
  simp only []
  by_cases hv : v = true
  · rw [if_pos hv]
    exact h0
  · rw [if_neg hv]
    exact frozen_invokeAll _ b m x m' _ hpid
      (frozen_broadcastMsg _ b m x m'
        (frozen_notifyListeners _ b m x m' _ hpid h0))

end MB.Sched

namespace MB.Sched

theorem frozen_drainPublishQueue (c : Config) (b : BusId) (m : Msg)
    (x : BusId) (h : Frozen c b m) : Frozen (drainPublishQueue c x) b m := by
  by_cases hd : (c.buses x).disposed = true
  · rw [drain_spec_disposed c x hd]
    refine ⟨?_, ?_, h.pidlt, h.tno, ?_, h.rno, h.dno, h.lno, h.eno, h.dlno⟩
    · simp only []
      by_cases hbx : b = x
      · subst hbx
        simp only [upd_same]
        exact h.disp
      · rw [upd_ne _ _ _ _ hbx]
        exact h.disp
    · simp only []
      by_cases hbx : b = x
      · subst hbx
        simp only [upd_same]
        exact h.mq
      · rw [upd_ne _ _ _ _ hbx]
        exact h.mq
    · intro y hy m'' hm''
      simp only [] at hm''
      by_cases hyx : y = x
      · subst hyx
        rw [upd_same] at hm''
        exact h.qno y hy m'' hm''
      · rw [upd_ne _ _ _ _ hyx] at hm''
        exact h.qno y hy m'' hm''
  · have hdf : (c.buses x).disposed = false := by simpa using hd
    have hxb : ¬x = b := by
      intro hh
      rw [hh, h.disp] at hdf
      exact absurd hdf (by simp)
    have hbx : ¬b = x := fun hh => hxb hh.symm
    rw [drain_spec c x hdf]
    refine ⟨?_, ?_, h.pidlt, ?_, ?_, ?_, h.dno, h.lno, h.eno, h.dlno⟩
    · simp only []
      rw [upd_ne _ _ _ _ hbx]
      exact h.disp
    · simp only []
      rw [upd_ne _ _ _ _ hbx]
      exact h.mq
    · intro y m' v hm'
      simp only [] at hm'
      rw [List.mem_append] at hm'
      cases hm' with
      | inl hm' => exact h.tno y m' v hm'
      | inr hm' =>
        rw [List.mem_map] at hm'
        obtain ⟨m'', hq, hmm⟩ := hm'
        injection hmm with h1 h2 h3
        rw [← h2]
        exact h.qno x hxb m'' hq
    · intro y hy m'' hm''
      simp only [] at hm''
      by_cases hyx : y = x
      · subst hyx
        rw [upd_same] at hm''
        simp at hm''
      · rw [upd_ne _ _ _ _ hyx] at hm''
        exact h.qno y hy m'' hm''
    · intro p hp
      simp only [] at hp
      rw [List.mem_append] at hp
      cases hp with
      | inl hp => exact h.rno p hp
      | inr hp =>
        rw [List.mem_map] at hp
        obtain ⟨m'', hq, hmm⟩ := hp
        rw [← hmm]
        exact h.qno x hxb m'' hq

theorem frozen_step (c : Config) (b : BusId) (m : Msg) (h : Frozen c b m) :
    Frozen (step c) b m := by
  cases htasks : c.tasks with
  | nil =>
    unfold step
    rw [htasks]
    exact h
  | cons t ts =>
    have h' : Frozen { c with tasks := ts } b m :=
      ⟨h.disp, h.mq, h.pidlt,
       fun y m' v hm => h.tno y m' v (by rw [htasks]; exact List.mem_cons_of_mem t hm),
       h.qno, h.rno, h.dno, h.lno, h.eno, h.dlno⟩
    cases t with
    | drain x =>
      unfold step
      rw [htasks]
      simp only []
      exact frozen_drainPublishQueue _ b m x h'
    | dispatch x m' v =>
      unfold step
      rw [htasks]
      simp only []
      exact frozen_execDispatch _ b m x m' v
        (h.tno x m' v (by rw [htasks]; exact List.mem_cons_self _ _)) h'

theorem frozen_run (c : Config) (b : BusId) (m : Msg) (n : Nat)
    (h : Frozen c b m) : Frozen (run c n) b m := by
  induction n generalizing c with
  | zero => exact h
  | succ n ih => exact ih (step c) (frozen_step c b m h)

/-- C10: a message enqueued on a bus that is disposed before its drain
microtask runs is silently dropped, forever: after any number of
microtasks it still sits in the disposed bus's queue, its thunk has never
executed (the `publishAsync` promise for its identity never settles), no
pending or past dispatch carries it, and no delivery, listener
notification or error-callback record mentions it. -/
theorem claim_C10_dispose_drops_enqueued_message (c : Config) (b : BusId)
    (m : Msg) (n : Nat) (h : Frozen c b m) :
    m ∈ ((run c n).buses b).queue ∧
    (∀ p ∈ (run c n).ranThunks, ¬p = m.pid) ∧
    (∀ x m' v, MTask.dispatch x m' v ∈ (run c n).tasks → ¬m'.pid = m.pid) ∧
    (∀ e ∈ (run c n).deliveryLog, ¬e.2.2.1 = m.pid) ∧
    (∀ e ∈ (run c n).listenerLog, ¬e.2.2.1 = m.pid) ∧
    (∀ e ∈ (run c n).errLog, ¬e.2.1 = m.pid) ∧
    (∀ x, ∀ m' ∈ (run c n).dispLog x, ¬m'.pid = m.pid) ∧
    Frozen (run c n) b m := by
  have h' := frozen_run c b m n h
  exact ⟨h'.mq, h'.rno, h'.tno, h'.dno, h'.lno, h'.eno, h'.dlno, h'⟩

/-- Bus 0: disposed (registry, listeners, interceptors cleared by
`dispose`) with one message still queued and its drain still scheduled;
bus 1: live with its own queued message. -/
def cD : Config :=
  ⟨fun x => if x = 0 then ⟨none, [], [], [], [], [⟨0, exTopic, 4, true, true, false⟩], true, true⟩
    else if x = 1 then ⟨none, [], [(exTopic, [mkReg 30])], [], [],
      [⟨1, exTopic, 5, true, true, false⟩], true, false⟩
    else busNilW,
   [MTask.drain 0, MTask.drain 1], [], [], [], fun _ => [],
   fun x => if x = 0 then [⟨0, exTopic, 4, true, true, false⟩]
     else if x = 1 then [⟨1, exTopic, 5, true, true, false⟩] else [],
   [], 2⟩

theorem claim_C10_dispose_drops_enqueued_message_witness :
    ((⟨0, exTopic, 4, true, true, false⟩ : Msg) ∈ ((run cD 3).buses 0).queue ∧
     (∀ p ∈ (run cD 3).ranThunks, ¬p = 0) ∧
     (∀ x m' v, MTask.dispatch x m' v ∈ (run cD 3).tasks → ¬m'.pid = 0) ∧
     (∀ e ∈ (run cD 3).deliveryLog, ¬e.2.2.1 = 0) ∧
     (∀ e ∈ (run cD 3).listenerLog, ¬e.2.2.1 = 0) ∧
     (∀ e ∈ (run cD 3).errLog, ¬e.2.1 = 0) ∧
     (∀ x, ∀ m' ∈ (run cD 3).dispLog x, ¬m'.pid = 0) ∧
     Frozen (run cD 3) 0 ⟨0, exTopic, 4, true, true, false⟩) ∧
    (run cD 3).deliveryLog = [(1, 30, 1, 5)] ∧
    ((run cD 3).buses 0).queue = [⟨0, exTopic, 4, true, true, false⟩] ∧
    (run cD 3).ranThunks = [1] := by
  refine ⟨claim_C10_dispose_drops_enqueued_message cD 0 _ 3 ?_, rfl, rfl, rfl⟩
  refine ⟨rfl, by simp [cD], by decide, ?_, ?_, ?_, ?_, ?_, ?_, ?_⟩
  · intro x m' v hm
    simp [cD] at hm
  · intro x hx m' hm'
    by_cases hx1 : x = 1
    · subst hx1
      simp [cD] at hm'
      rw [hm']
      decide
    · simp [cD, hx, hx1, busNilW] at hm'
  · intro p hp
    simp [cD] at hp
  · intro e he
    simp [cD] at he
  · intro e he
    simp [cD] at he
  · intro e he
    simp [cD] at he
  · intro x m' hm'
    simp [cD] at hm'

end MB.Sched

namespace MB

/-- C2 (code bug): for every awaited publish whose composed interceptor
veto check returns true, the dispatch is fully suppressed — the result
carries no values, no errors and `vetoed = true`, no callback fires, and
in the scheduler model a vetoed dispatch continuation notifies no
listener, invokes no handler, and enqueues no broadcast — but the
`publishAsync` continuation settles with the `no subscribers` rejection,
never with the distinct `has been vetoed` rejection: the guard
`check(vetoed !== false, ...)` cannot fail when `vetoed` is `true` (or
`undefined`), so the veto error is unreachable. -/
theorem claim_C2_vetoed_awaited_publish_misreported :
    (∀ (t : Out.BusTree) (parent : Option Out.BusTree) (topic : Topic) (d : Data),
      Out.isVetoedComposed t.vetoes topic d = true →
      (Out.publishTop t parent topic d true).1 = ⟨[], [], some true⟩ ∧
      (Out.publishTop t parent topic d true).2 = [] ∧
      Out.publishAsyncResult topic (Out.publishTop t parent topic d true).1 =
        Out.PubOutcome.errNoSubscribers ∧
      ¬Out.publishAsyncResult topic (Out.publishTop t parent topic d true).1 =
        Out.PubOutcome.errVetoed) ∧
    (∀ (c : Sched.Config) (b : BusId) (m : Sched.Msg),
      (Sched.execDispatch c b m true).deliveryLog = c.deliveryLog ∧
      (Sched.execDispatch c b m true).listenerLog = c.listenerLog ∧
      (Sched.execDispatch c b m true).errLog = c.errLog ∧
      (Sched.execDispatch c b m true).buses = c.buses ∧
      (Sched.execDispatch c b m true).tasks = c.tasks) := by
  refine ⟨?_, ?_⟩
  · intro t parent topic d h
    rw [Out.publishTop.eq_def, if_pos h]
    refine ⟨rfl, rfl, rfl, fun hh => ?_⟩
    have heq : Out.publishAsyncResult topic
        (⟨[], [], some true⟩ : Out.MessageResult) = Out.PubOutcome.errNoSubscribers := rfl
    exact Out.PubOutcome.noConfusion (heq.symm.trans hh)
  · intro c b m
    exact ⟨rfl, rfl, rfl, rfl, rfl⟩

/-- A bus with one interceptor that vetoes everything. -/
def tV : Out.BusTree := Out.BusTree.node [] [] [fun _ _ => true] []

theorem claim_C2_vetoed_awaited_publish_misreported_witness :
    Out.isVetoedComposed tV.vetoes exTopic 0 = true ∧
    ((Out.publishTop tV none exTopic 0 true).1 = ⟨[], [], some true⟩ ∧
     (Out.publishTop tV none exTopic 0 true).2 = [] ∧
     Out.publishAsyncResult exTopic (Out.publishTop tV none exTopic 0 true).1 =
       Out.PubOutcome.errNoSubscribers ∧
     ¬Out.publishAsyncResult exTopic (Out.publishTop tV none exTopic 0 true).1 =
       Out.PubOutcome.errVetoed) :=
  ⟨rfl, claim_C2_vetoed_awaited_publish_misreported.1 tV none exTopic 0 rfl⟩

end MB
